import Mathlib

/-!
Verification development for the Elyx interaction-record simulator
(src/simulate.py).  The simulator walks a calendar day by day and emits
Message / Decision / Test records into append-only sequences, accruing
per-role staff hours on the way.

Shallow-embedding conventions:
* Python `datetime` values are modelled as proleptic-Gregorian calendar
  dates (`Date`) plus an hour/minute pair (`DT`); all datetimes in the
  program live in the fixed UTC+8 offset, and seconds are always zero.
* `isoformat` / `strftime` / `fromisoformat(...).isocalendar()` are
  modelled character by character for the formats actually produced.
* Python's Mersenne-Twister generator `random.Random` is abstracted as a
  structure `RNG σ` over an opaque state type: a deterministic `next`
  draw, plus deterministic state constructors from an integer seed
  (`random.Random(seed)`) and from a string key (`rng.seed(str)`).
  `randint`/`choice`/`random`/`uniform` are derived so that their range
  contracts match CPython's.  Theorems universally quantified over `RNG`
  hold in particular for the Mersenne-Twister instance.
* `uuid.uuid4().hex[:8]` is an entropy source outside (configuration,
  seed); it is modelled as an ambient stream `ids : Nat → String`
  consumed in order by `new_id`.
* Float arithmetic (`0.1`/`0.5` hour increments, `random()`, `uniform`)
  is modelled with exact rationals.
-/

namespace Elyx

/-- Proleptic Gregorian calendar date, as carried by Python `datetime`. -/
structure Date where
  y : Nat
  m : Nat
  d : Nat
deriving DecidableEq, Repr

/-- Gregorian leap-year rule (as used by `datetime`). -/
def isLeap (y : Nat) : Prop := (y % 4 = 0 ∧ ¬ y % 100 = 0) ∨ y % 400 = 0

instance (y : Nat) : Decidable (isLeap y) := by
  unfold isLeap; infer_instance

/-- Length of month `m` in year `y`. -/
def monthLen (y : Nat) (m : Nat) : Nat :=
  if m = 2 then (if isLeap y then 29 else 28)
  else if m = 4 ∨ m = 6 ∨ m = 9 ∨ m = 11 then 30
  else 31

/-- Day count of a civil date from the fixed epoch 0000-03-01
(standard era-based conversion); models `datetime` day arithmetic. -/
def shiftYear (y m : Nat) : Nat := if m ≤ 2 then y - 1 else y

def shiftMonth (m : Nat) : Nat := if m ≤ 2 then m + 9 else m - 3

def daysFromCivil (y m d : Nat) : Nat :=
  shiftYear y m / 400 * 146097 +
    (shiftYear y m % 400 * 365 + shiftYear y m % 400 / 4 -
      shiftYear y m % 400 / 100 +
      ((153 * shiftMonth m + 2) / 5 + d - 1))

/-- Linear day number of a `Date`. -/
def dayNum (x : Date) : Nat := daysFromCivil x.y x.m x.d

/-- Python `date.weekday()`: Monday = 0 … Sunday = 6. -/
def pyWeekday (x : Date) : Nat := (dayNum x + 2) % 7

/-- Number of ISO-8601 weeks in year `y` (52 or 53). -/
def weeksInYear (y : Nat) : Nat :=
  if (daysFromCivil y 1 1 + 2) % 7 = 3 ∨ (isLeap y ∧ (daysFromCivil y 1 1 + 2) % 7 = 2)
  then 53 else 52

/-- Python `date.isocalendar()[:2]`: the ISO-8601 (year, week) pair. -/
def isoWeekPair (x : Date) : Nat × Nat :=
  let yday := dayNum x - daysFromCivil x.y 1 1 + 1
  let wd := pyWeekday x + 1
  let w0 := (yday + 10 - wd) / 7
  if w0 = 0 then (x.y - 1, weeksInYear (x.y - 1))
  else if w0 = 53 ∧ weeksInYear x.y = 52 then (x.y + 1, 1)
  else (x.y, w0)

/-- Successor date; models `current += timedelta(days=1)`. -/
def nextDay (x : Date) : Date :=
  if x.d < monthLen x.y x.m then ⟨x.y, x.m, x.d + 1⟩
  else if x.m < 12 then ⟨x.y, x.m + 1, 1⟩
  else ⟨x.y + 1, 1, 1⟩

/-- `addDays x n` models `x + timedelta(days=n)`. -/
def addDays (x : Date) : Nat → Date
  | 0 => x
  | n + 1 => nextDay (addDays x n)

/-- In-range civil date (what Python `datetime` actually stores). -/
def Date.Valid (x : Date) : Prop :=
  1 ≤ x.y ∧ 1 ≤ x.m ∧ x.m ≤ 12 ∧ 1 ≤ x.d ∧ x.d ≤ monthLen x.y x.m

instance (x : Date) : Decidable x.Valid := by
  unfold Date.Valid; infer_instance

/-- A datetime in the simulator: a date with an hour/minute
(seconds are always zero in every constructed datetime). -/
structure DT where
  date : Date
  hour : Nat
  minute : Nat
deriving DecidableEq, Repr

/-- Decimal digit character. -/
def dg (n : Nat) : Char :=
  match n with
  | 0 => '0' | 1 => '1' | 2 => '2' | 3 => '3' | 4 => '4'
  | 5 => '5' | 6 => '6' | 7 => '7' | 8 => '8' | _ => '9'

/-- Value of a decimal digit character. -/
def dgVal (c : Char) : Nat :=
  match c with
  | '0' => 0 | '1' => 1 | '2' => 2 | '3' => 3 | '4' => 4
  | '5' => 5 | '6' => 6 | '7' => 7 | '8' => 8 | _ => 9

/-- Characters of `strftime("%Y-%m-%d")` (for in-range dates). -/
def dateChars (x : Date) : List Char :=
  [dg (x.y / 1000), dg (x.y / 100 % 10), dg (x.y / 10 % 10), dg (x.y % 10), '-',
   dg (x.m / 10), dg (x.m % 10), '-', dg (x.d / 10), dg (x.d % 10)]

/-- `strftime("%Y-%m-%d")`. -/
def dateStr (x : Date) : String := String.mk (dateChars x)

/-- Characters of the time-of-day / offset tail of `isoformat()`. -/
def timeChars (t : DT) : List Char :=
  ['T', dg (t.hour / 10), dg (t.hour % 10), ':',
   dg (t.minute / 10), dg (t.minute % 10), ':', '0', '0',
   '+', '0', '8', ':', '0', '0']

/-- `iso(dt) = dt.astimezone(SGT).isoformat()` — the datetimes are
already in UTC+8, so this is plain ISO-8601 rendering. -/
def iso (t : DT) : String := String.mk (dateChars t.date ++ timeChars t)

/-- `datetime.fromisoformat(ts).isocalendar()[:2]`: read the leading
`YYYY-MM-DD` of an ISO timestamp and take its ISO (year, week). -/
def tsWeekPair (ts : String) : Nat × Nat :=
  match ts.data with
  | a :: b :: c :: d :: _ :: e :: f :: _ :: g :: h :: _ =>
      isoWeekPair ⟨dgVal a * 1000 + dgVal b * 100 + dgVal c * 10 + dgVal d,
                   dgVal e * 10 + dgVal f, dgVal g * 10 + dgVal h⟩
  | _ => (0, 0)

/-- `datetime.fromisoformat(s).date()`-style day number of a
`YYYY-MM-DD` string. -/
def dayKey (s : String) : Nat :=
  match s.data with
  | a :: b :: c :: d :: _ :: e :: f :: _ :: g :: h :: _ =>
      dayNum ⟨dgVal a * 1000 + dgVal b * 100 + dgVal c * 10 + dgVal d,
              dgVal e * 10 + dgVal f, dgVal g * 10 + dgVal h⟩
  | _ => 0

theorem dgVal_dg {n : Nat} (h : n < 10) : dgVal (dg n) = n := by
  interval_cases n <;> rfl

/-- Reading back the date part of a rendered date string recovers the
date, for dates with at most four year digits. -/
theorem parse_dateChars (x : Date) (hy : x.y < 10000) (hm : x.m < 100)
    (hd : x.d < 100) (rest : List Char) :
    (match dateChars x ++ rest with
     | a :: b :: c :: d :: _ :: e :: f :: _ :: g :: h :: _ =>
         some (⟨dgVal a * 1000 + dgVal b * 100 + dgVal c * 10 + dgVal d,
                dgVal e * 10 + dgVal f, dgVal g * 10 + dgVal h⟩ : Date)
     | _ => none) = some x := by
  obtain ⟨y, m, d⟩ := x
  have hy' : y < 10000 := hy
  have hm' : m < 100 := hm
  have hd' : d < 100 := hd
  simp only [dateChars, List.cons_append, List.nil_append]
  have h1 : y / 1000 < 10 := by omega
  have h2 : y / 100 % 10 < 10 := by omega
  have h3 : y / 10 % 10 < 10 := by omega
  have h4 : y % 10 < 10 := by omega
  have h5 : m / 10 < 10 := by omega
  have h6 : m % 10 < 10 := by omega
  have h7 : d / 10 < 10 := by omega
  have h8 : d % 10 < 10 := by omega
  simp only [dgVal_dg h1, dgVal_dg h2, dgVal_dg h3, dgVal_dg h4,
    dgVal_dg h5, dgVal_dg h6, dgVal_dg h7, dgVal_dg h8,
    Option.some.injEq, Date.mk.injEq]
  refine ⟨by omega, by omega, by omega⟩

theorem tsWeekPair_iso (t : DT) (hy : t.date.y < 10000) (hm : t.date.m < 100)
    (hd : t.date.d < 100) : tsWeekPair (iso t) = isoWeekPair t.date := by
  have h := parse_dateChars t.date hy hm hd (timeChars t)
  unfold tsWeekPair iso
  revert h
  match hm2 : dateChars t.date ++ timeChars t with
  | a :: b :: c :: d :: e' :: e :: f :: f' :: g :: h :: rest =>
      intro hsome
      simp only [Option.some.injEq] at hsome
      simp [hsome]
  | [] => intro hsome; simp at hsome
  | [_] => intro hsome; simp at hsome
  | [_, _] => intro hsome; simp at hsome
  | [_, _, _] => intro hsome; simp at hsome
  | [_, _, _, _] => intro hsome; simp at hsome
  | [_, _, _, _, _] => intro hsome; simp at hsome
  | [_, _, _, _, _, _] => intro hsome; simp at hsome
  | [_, _, _, _, _, _, _] => intro hsome; simp at hsome
  | [_, _, _, _, _, _, _, _] => intro hsome; simp at hsome
  | [_, _, _, _, _, _, _, _, _] => intro hsome; simp at hsome

theorem dayKey_dateStr (x : Date) (hy : x.y < 10000) (hm : x.m < 100)
    (hd : x.d < 100) : dayKey (dateStr x) = dayNum x := by
  have h := parse_dateChars x hy hm hd []
  unfold dayKey dateStr
  rw [show dateChars x = dateChars x ++ [] from (List.append_nil _).symm] at h ⊢
  revert h
  match hm2 : dateChars x ++ [] with
  | a :: b :: c :: d :: e' :: e :: f :: f' :: g :: h :: rest =>
      intro hsome
      simp only [Option.some.injEq] at hsome
      simp [hsome]
  | [] => intro hsome; simp at hsome
  | [_] => intro hsome; simp at hsome
  | [_, _] => intro hsome; simp at hsome
  | [_, _, _] => intro hsome; simp at hsome
  | [_, _, _, _] => intro hsome; simp at hsome
  | [_, _, _, _, _] => intro hsome; simp at hsome
  | [_, _, _, _, _, _] => intro hsome; simp at hsome
  | [_, _, _, _, _, _, _] => intro hsome; simp at hsome
  | [_, _, _, _, _, _, _, _] => intro hsome; simp at hsome
  | [_, _, _, _, _, _, _, _, _] => intro hsome; simp at hsome

theorem monthLen_pos (y m : Nat) : 1 ≤ monthLen y m := by
  unfold monthLen
  split_ifs <;> omega

theorem nextDay_valid {x : Date} (h : x.Valid) : (nextDay x).Valid := by
  obtain ⟨y, m, d⟩ := x
  obtain ⟨h1, h2, h3, h4, h5⟩ := h
  dsimp only at h1 h2 h3 h4 h5
  unfold nextDay
  split_ifs with hd hm
  · exact ⟨h1, h2, h3, Nat.succ_le_succ (Nat.zero_le d), hd⟩
  · exact ⟨h1, Nat.le_add_right_of_le h2, hm, Nat.le_refl 1, monthLen_pos y (m + 1)⟩
  · refine ⟨Nat.le_add_right_of_le h1, Nat.le_refl 1, ?_, Nat.le_refl 1,
      monthLen_pos (y + 1) 1⟩
    dsimp only
    omega

theorem nextDay_y_le {x : Date} : (nextDay x).y ≤ x.y + 1 := by
  unfold nextDay; split_ifs <;> simp

theorem dayNum_succ_day {y m d : Nat} (hd : 1 ≤ d) :
    daysFromCivil y m (d + 1) = daysFromCivil y m d + 1 := by
  unfold daysFromCivil shiftYear shiftMonth
  split_ifs <;> omega

theorem dayNum_succ_month {y m : Nat} (h1 : 1 ≤ y) (h2 : 1 ≤ m) (h3 : m ≤ 11) :
    daysFromCivil y (m + 1) 1 = daysFromCivil y m (monthLen y m) + 1 := by
  interval_cases m <;>
    (unfold daysFromCivil shiftYear shiftMonth monthLen isLeap
     split_ifs <;> omega)

theorem dayNum_succ_year {y : Nat} (h1 : 1 ≤ y) :
    daysFromCivil (y + 1) 1 1 = daysFromCivil y 12 31 + 1 := by
  unfold daysFromCivil shiftYear shiftMonth
  split_ifs <;> omega

/-- The successor date is one day later in the linear day count. -/
theorem dayNum_nextDay {x : Date} (h : x.Valid) :
    dayNum (nextDay x) = dayNum x + 1 := by
  obtain ⟨y, m, d⟩ := x
  obtain ⟨h1, h2, h3, h4, h5⟩ := h
  dsimp only at h1 h2 h3 h4 h5
  unfold nextDay dayNum
  split_ifs with hd hm
  · dsimp only at hd ⊢
    exact dayNum_succ_day h4
  · dsimp only at hd hm ⊢
    have hdl : d = monthLen y m := by omega
    subst hdl
    exact dayNum_succ_month h1 h2 (by omega)
  · dsimp only at hd hm ⊢
    have hm12 : m = 12 := by omega
    subst hm12
    have hdl : d = 31 := by
      unfold monthLen at hd h5
      split_ifs at hd h5 <;> omega
    subst hdl
    exact dayNum_succ_year h1

/-! ## Record types (the three dataclasses) -/

/-- The `Message` dataclass. -/
structure Message where
  id : String
  ts : String
  day : String
  sender_id : String
  sender_name : String
  sender_role : String
  /-- the dataclass field `to` (a Lean keyword) -/
  to' : String
  text : String
  tags : List String
  related_decision_ids : List String
deriving DecidableEq, Repr

/-- The `triggers` dict of a Decision. -/
structure Triggers where
  message_ids : List String
  test_ids : List String
  metrics : List String
deriving DecidableEq, Repr

/-- The `effects` dict of a Decision. -/
structure Effects where
  plan_changes : List String
  followups : List String
deriving DecidableEq, Repr

/-- The `Decision` dataclass. -/
structure Decision where
  id : String
  ts : String
  actor_id : String
  actor_name : String
  actor_role : String
  kind : String
  title : String
  rationale : String
  triggers : Triggers
  effects : Effects
deriving DecidableEq, Repr

/-- The `highlights` dict of a Test (fixed keys ApoB / hsCRP / FPG). -/
structure Highlights where
  apoB : Nat
  hsCRP : ℚ
  fpg : Nat
deriving DecidableEq, Repr

/-- The `Test` dataclass. -/
structure Test where
  id : String
  ts : String
  panel : String
  summary : String
  highlights : Highlights
deriving DecidableEq, Repr

/-- The `ROLES` table: participant id to (name, role).  Python raises
`KeyError` off the table; all call sites use the fixed keys, so the
fall-through value is unreachable. -/
def ROLES (uid : String) : String × String :=
  if uid = "U-RUBY" then ("Ruby", "Concierge")
  else if uid = "U-NEEL" then ("Neel", "Concierge Lead")
  else if uid = "U-WARREN" then ("Dr. Warren", "Medical")
  else if uid = "U-RACHEL" then ("Rachel", "PT")
  else if uid = "U-CARLA" then ("Carla", "Nutrition")
  else if uid = "U-ADVIK" then ("Advik", "Lifestyle")
  else if uid = "M-001" then ("Rohan", "Member")
  else ("", "")

/-- `new_id(prefix)` = `prefix ++ "-" ++ uuid4().hex[:8]`; the uuid
entropy is the ambient stream `ids`, consumed at position `k`. -/
def new_id (ids : Nat → String) (k : Nat) (pfx : String) : String :=
  pfx ++ "-" ++ ids k

/-! ## The RNG facade

`random.Random` abstracted over its (Mersenne-Twister) state type `σ`. -/

structure RNG (σ : Type) where
  next : σ → Nat × σ
  seedInt : Int → σ
  seedStr : String → σ

variable {σ : Type}

/-- `rng.randint(a, b)`: uniform integer in `[a, b]` (requires `a ≤ b`). -/
def RNG.randint (r : RNG σ) (a b : Nat) (st : σ) : Nat × σ :=
  let p := r.next st
  (a + p.1 % (b + 1 - a), p.2)

/-- `rng.random()`: a draw in `[0, 1)` (CPython uses 53 random bits). -/
def RNG.randUnit (r : RNG σ) (st : σ) : ℚ × σ :=
  let p := r.next st
  (((p.1 % 2 ^ 53 : Nat) : ℚ) / 2 ^ 53, p.2)

/-- `rng.choice(l)` index: uniform in `[0, len)`. -/
def RNG.choiceIdx (r : RNG σ) (len : Nat) (st : σ) : Nat × σ :=
  let p := r.next st
  (p.1 % len, p.2)

/-- `rng.uniform(a, b) = a + (b - a) * random()`. -/
def RNG.uniform (r : RNG σ) (a b : ℚ) (st : σ) : ℚ × σ :=
  let p := r.randUnit st
  (a + (b - a) * p.1, p.2)

/-- Python `round(x, 2)` (exact-arithmetic model; Python's tie-breaking
on binary floats is immaterial to every property proved below). -/
def round2 (q : ℚ) : ℚ := ((round (q * 100) : ℤ) : ℚ) / 100

/-- Rendering of a two-decimal value inside an f-string. -/
def fmtQ2 (q : ℚ) : String :=
  (toString ((round (q * 100) : ℤ).toNat / 100)) ++ "." ++
    String.mk [dg ((round (q * 100) : ℤ).toNat % 100 / 10),
               dg ((round (q * 100) : ℤ).toNat % 100 % 10)]

/-! ## Configuration and simulator state -/

/-- The `cfg["simulation"]` fields read by the simulator. -/
structure Config where
  start : Date
  months : Nat
  seed : Int
  diagnostic_panel_months : List Int
  adherence_probability : ℚ
  max_member_threads_per_week : Nat
  travel_week_every_n_weeks : Nat
  exercise_update_days : Nat

/-- One emitted record, in program emission order. -/
inductive Ev where
  | msg (m : Message)
  | dec (d : Decision)
  | tst (t : Test)
deriving DecidableEq, Repr

/-- Simulator state: the RNG state, the interleaved emission trace (the
three append-only lists `messages` / `decisions` / `tests` are its
projections below), the per-role hours dict, `last_exercise_update`,
and the position in the uuid stream. -/
structure SimState (σ : Type) where
  rng : σ
  trace : List Ev
  hours : String → ℚ
  lastEx : Date
  idCtr : Nat

/-- `self.messages`. -/
def msgs (s : SimState σ) : List Message :=
  s.trace.filterMap fun e => match e with | .msg m => some m | _ => none

/-- `self.decisions`. -/
def decs (s : SimState σ) : List Decision :=
  s.trace.filterMap fun e => match e with | .dec d => some d | _ => none

/-- `self.tests`. -/
def tsts (s : SimState σ) : List Test :=
  s.trace.filterMap fun e => match e with | .tst t => some t | _ => none

/-- The keys of `self.internal_hours`. -/
def hourRoles : List String :=
  ["Medical", "PT", "Nutrition", "Lifestyle", "Concierge", "Concierge Lead"]

/-- Pointwise bump of one bucket of the hours dict. -/
def addHours (h : String → ℚ) (role : String) (amt : ℚ) : String → ℚ :=
  fun r => if r = role then h r + amt else h r

/-- Python `messages[len - k]` (used as `messages[-1]`, `messages[-2]`);
the call sites guarantee the index is in range. -/
def nthLastMsgId (l : List Message) (k : Nat) : String :=
  match l.get? (l.length - k) with
  | some m => m.id
  | none => ""

/-- `_emit_message`. -/
def emitMessage (ids : Nat → String) (s : SimState σ) (t : DT)
    (sender_id toWhom text : String) (tags rel : List String) :
    SimState σ × Message :=
  let nr := ROLES sender_id
  let m : Message :=
    { id := new_id ids s.idCtr "MSG", ts := iso t, day := dateStr t.date,
      sender_id := sender_id, sender_name := nr.1, sender_role := nr.2,
      to' := toWhom, text := text, tags := tags, related_decision_ids := rel }
  ({ s with
      trace := s.trace ++ [Ev.msg m]
      idCtr := s.idCtr + 1
      hours :=
        if nr.2 ∈ hourRoles ∧ nr.2 ≠ "Member" then addHours s.hours nr.2 (1/10)
        else s.hours }, m)

/-- `_emit_decision`. -/
def emitDecision (ids : Nat → String) (s : SimState σ) (t : DT)
    (actor_id kind title rationale : String) (triggers : Triggers)
    (effects : Effects) : SimState σ × Decision :=
  let nr := ROLES actor_id
  let d : Decision :=
    { id := new_id ids s.idCtr "DEC", ts := iso t,
      actor_id := actor_id, actor_name := nr.1, actor_role := nr.2,
      kind := kind, title := title, rationale := rationale,
      triggers := triggers, effects := effects }
  ({ s with
      trace := s.trace ++ [Ev.dec d]
      idCtr := s.idCtr + 1
      hours :=
        if nr.2 ∈ hourRoles then addHours s.hours nr.2 (1/2)
        else s.hours }, d)

/-! ## Event generators -/

/-- Bundled run context: configuration, RNG implementation, uuid stream. -/
structure Ctx (σ : Type) where
  cfg : Config
  rng : RNG σ
  ids : Nat → String

/-- The fixed topic list of `_member_reaches_out`. -/
def topics : List (String × String) :=
  [("sleep", "Rohan: Had poor deep sleep last night. Any quick fixes?"),
   ("apoB", "Rohan: I read about ApoB targets. What’s a realistic goal for me?"),
   ("workout", "Rohan: Can we swap today’s session? Hotel gym is limited."),
   ("travel", "Rohan: Jet lag is rough this trip. How should I adjust today?"),
   ("wearable", "Rohan: Why is my HRV down despite a rest day?")]

/-- The topic-to-specialist routing dict (total on the five topic tags). -/
def routeOf (tag : String) : String :=
  if tag = "sleep" then "U-ADVIK"
  else if tag = "apoB" then "U-WARREN"
  else if tag = "workout" then "U-RACHEL"
  else if tag = "travel" then "U-ADVIK"
  else "U-ADVIK"

/-- `_member_reaches_out`. -/
def memberReachesOut (C : Ctx σ) (cur : Date) (day_str : String)
    (is_travel : Bool) (s : SimState σ) : SimState σ :=
  let p := C.rng.choiceIdx topics.length s.rng
  let tg := (topics.getD p.1 ("", "")).1
  let tx := (topics.getD p.1 ("", "")).2
  let s0 : SimState σ := { s with rng := p.2 }
  let e1 := emitMessage C.ids s0 ⟨cur, 9, 0⟩ "M-001" "U-RUBY" tx
      [tg, "member_initiated"] []
  let s1 := e1.1
  let route := routeOf tg
  let e2 := emitMessage C.ids s1 ⟨cur, 9, 10⟩ "U-RUBY" route
      ("Routing to " ++ (ROLES route).1 ++ " for guidance.") ["routing"] []
  let s2 := e2.1
  if route = "U-WARREN" ∧ tg = "apoB" then
    let e3 := emitDecision C.ids s2 ⟨cur, 10, 0⟩ "U-WARREN" "plan_update"
        "ApoB reduction strategy"
        "Elevated ApoB + member interest → tighten nutrition & add fiber protocol before pharmacotherapy."
        ⟨[nthLastMsgId (msgs s2) 2], [], ["ApoB: elevated"]⟩
        ⟨["Increase soluble fiber 10-15g/day", "Olive oil for cooking",
          "Repeat panel in 90 days"], ["Nutrition check-in weekly"]⟩
    (emitMessage C.ids e3.1 ⟨cur, 10, 5⟩ "U-CARLA" "M-001"
        "I’ll set Javier’s plan: more legumes/oats + psyllium. We’ll monitor bloating & CGM."
        ["nutrition"] [e3.2.id]).1
  else s2

/-- `_concierge_checkin`. -/
def conciergeCheckin (C : Ctx σ) (cur : Date) (day_str : String)
    (is_travel : Bool) (s : SimState σ) : SimState σ :=
  (emitMessage C.ids s ⟨cur, 11, 0⟩ "U-RUBY" "M-001"
      "Weekly check-in: any blockers to the plan? I can help coordinate."
      ["checkin", "concierge"] []).1

/-- `_exercise_update`. -/
def exerciseUpdate (C : Ctx σ) (cur : Date) (day_str : String)
    (adherence_p : ℚ) (is_travel : Bool) (s : SimState σ) : SimState σ :=
  let s0 : SimState σ := { s with lastEx := cur }
  let p := C.rng.randUnit s0.rng
  let adhered : Bool := decide (p.1 < adherence_p) && !is_travel
  let title := if adhered then "Progression: increase Zone 2 by +5 min"
               else "Adjustment: maintain volume; add travel-safe routine"
  let rationale :=
    if adhered then "Consistent adherence & stable HR/HRV trends → progressive overload."
    else "Low adherence and/or travel constraints → keep volume steady and add bodyweight set."
  let e1 := emitDecision C.ids { s0 with rng := p.2 } ⟨cur, 14, 0⟩ "U-RACHEL"
      "plan_update" title rationale
      ⟨[], [], ["adherence", if is_travel then "travel" else "home"]⟩
      ⟨[title], ["PT check-in in 1 week"]⟩
  (emitMessage C.ids e1.1 ⟨cur, 14, 10⟩ "U-RACHEL" "M-001"
      (title ++ ". I’ve pushed it to your app.") ["exercise_update"] [e1.2.id]).1

/-- The recommendation text selected by the ApoB threshold (the source
initialises the nutrition-first text and overwrites it when
`apoB >= 110`). -/
def panelRec (apoB : Nat) : String :=
  if 110 ≤ apoB then
    "Intensify nutrition + discuss pharmacotherapy candidly; recheck in 90 days."
  else "Nutrition-first + fiber protocol; recheck in 90 days."

/-- `_quarterly_panel`. -/
def quarterlyPanel (C : Ctx σ) (cur : Date) (day_str : String)
    (s : SimState σ) : SimState σ :=
  let pa := C.rng.randint 90 115 s.rng
  let apoB := pa.1
  let ph := C.rng.uniform (1/2) 2 pa.2
  let hsCRP := round2 ph.1
  let pg := C.rng.randint 85 102 ph.2
  let fpg := pg.1
  let test : Test :=
    { id := new_id C.ids s.idCtr "TST", ts := iso ⟨cur, 8, 0⟩,
      panel := "Quarterly Panel",
      summary := "Comprehensive biomarkers (ApoB, hsCRP, FPG).",
      highlights := ⟨apoB, hsCRP, fpg⟩ }
  let s1 : SimState σ :=
    { s with
        rng := pg.2
        trace := s.trace ++ [Ev.tst test]
        idCtr := s.idCtr + 1 }
  let e2 := emitMessage C.ids s1 ⟨cur, 8, 30⟩ "U-RUBY" "U-WARREN"
      "Panel results have arrived; routing for analysis." ["labs"] []
  let s2 := e2.1
  let recTxt := panelRec apoB
  let e3 := emitDecision C.ids s2 ⟨cur, 12, 0⟩ "U-WARREN" "test"
      "Quarterly Panel Review"
      ("Panel shows ApoB=" ++ toString apoB ++ ", hsCRP=" ++ fmtQ2 hsCRP ++
        ", FPG=" ++ toString fpg ++ ". " ++ recTxt)
      ⟨[nthLastMsgId (msgs s2) 1], [test.id], ["ApoB:" ++ toString apoB]⟩
      ⟨[recTxt], ["Q&A with member", "Nutrition plan tweaks"]⟩
  (emitMessage C.ids e3.1 ⟨cur, 12, 15⟩ "U-WARREN" "M-001"
      ("Your panel is back. ApoB=" ++ toString apoB ++ ". I recommend: " ++ recTxt)
      ["labs", "summary"] [e3.2.id]).1

/-! ## The calendar walker -/

/-- `_count_week_member_threads`. -/
def countWeekMemberThreads (s : SimState σ) (year week : Nat) : Nat :=
  ((msgs s).filter fun m =>
      decide (m.sender_role = "Member" ∧ tsWeekPair m.ts = (year, week))).length

/-- `_weekly_member_threads`: re-seeds the shared generator from the
composite string key, then draws `randint(2, cap)`.  The pre-existing
generator state (the argument) is discarded — exactly as
`self.rng.seed(...)` discards the Mersenne-Twister state. -/
def weeklyMemberThreads (C : Ctx σ) (st : σ) (year week cap : Nat) : Nat × σ :=
  C.rng.randint 2 cap
    (C.rng.seedStr
      ("wk-" ++ toString year ++ "-" ++ toString week ++ "-" ++ toString C.cfg.seed))

/-- Number of iterations of the travel pre-pass loop
(`while current < end` stepping 7 days: all `i` with `7*i < 30*months`). -/
def numTravelIters (cfg : Config) : Nat := (30 * cfg.months + 6) / 7

/-- The travel-week pre-pass: marks the ISO week of `start + 7*i days`
whenever `i % travel_week_every_n_weeks == 3`. -/
def travelWeeks (cfg : Config) : List (Nat × Nat) :=
  (List.range (numTravelIters cfg)).filterMap fun i =>
    if i % cfg.travel_week_every_n_weeks = 3 then
      some (isoWeekPair (addDays cfg.start (7 * i)))
    else none

/-- Day-loop phase 1: member-initiated threads (weekday < 5): compute
the weekly quota (re-seeding the shared RNG), subtract the threads
already counted this ISO week, draw `randint(0, min(2, remaining))`
and run `_member_reaches_out` that many times. -/
def stepMember (C : Ctx σ) (travel : List (Nat × Nat)) (cur : Date)
    (s : SimState σ) : SimState σ :=
  if pyWeekday cur < 5 then
    let yw := isoWeekPair cur
    let q := weeklyMemberThreads C s.rng yw.1 yw.2 C.cfg.max_member_threads_per_week
    let s' : SimState σ := { s with rng := q.2 }
    -- Python `max(0, weekly - count)` over ints = truncated Nat subtraction
    let remaining := q.1 - countWeekMemberThreads s' yw.1 yw.2
    let k := C.rng.randint 0 (min 2 remaining) s'.rng
    let s'' : SimState σ := { s' with rng := k.2 }
    (memberReachesOut C cur (dateStr cur) (decide (yw ∈ travel)))^[k.1] s''
  else s

/-- Day-loop phase 2: concierge check-in on Mondays and Thursdays. -/
def stepCheckin (C : Ctx σ) (travel : List (Nat × Nat)) (cur : Date)
    (s : SimState σ) : SimState σ :=
  if pyWeekday cur = 0 ∨ pyWeekday cur = 3 then
    conciergeCheckin C cur (dateStr cur) (decide (isoWeekPair cur ∈ travel)) s
  else s

/-- Day-loop phase 3: exercise update when enough days have elapsed. -/
def stepExercise (C : Ctx σ) (travel : List (Nat × Nat)) (cur : Date)
    (s : SimState σ) : SimState σ :=
  if C.cfg.exercise_update_days ≤ dayNum cur - dayNum s.lastEx then
    exerciseUpdate C cur (dateStr cur) C.cfg.adherence_probability
      (decide (isoWeekPair cur ∈ travel)) s
  else s

/-- `month_num = (Δyears)*12 + Δmonths + 1` relative to the start. -/
def monthNum (cfg : Config) (cur : Date) : Int :=
  ((cur.y : Int) - (cfg.start.y : Int)) * 12 +
    ((cur.m : Int) - (cfg.start.m : Int)) + 1

/-- Day-loop phase 4: quarterly panel on day 10 of a configured month. -/
def stepPanel (C : Ctx σ) (cur : Date) (s : SimState σ) : SimState σ :=
  if cur.d = 10 ∧ monthNum C.cfg cur ∈ C.cfg.diagnostic_panel_months then
    quarterlyPanel C cur (dateStr cur) s
  else s

/-- One iteration of the main day loop (the body of `run`'s while):
the four checks in program order. -/
def stepDay (C : Ctx σ) (travel : List (Nat × Nat)) (cur : Date)
    (s : SimState σ) : SimState σ :=
  stepPanel C cur (stepExercise C travel cur (stepCheckin C travel cur
    (stepMember C travel cur s)))

/-- The main loop, `n` remaining days starting at `cur`. -/
def runDays (C : Ctx σ) (travel : List (Nat × Nat)) :
    Nat → Date → SimState σ → SimState σ
  | 0, _, s => s
  | n + 1, cur, s => runDays C travel n (nextDay cur) (stepDay C travel cur s)

/-- `__init__`: seeded RNG, empty sequences, zeroed hours dict,
`last_exercise_update = start`. -/
def initState (C : Ctx σ) : SimState σ :=
  { rng := C.rng.seedInt C.cfg.seed
    trace := []
    hours := fun _ => 0
    lastEx := C.cfg.start
    idCtr := 0 }

/-- `ElyxSimulator(cfg).run()`: the travel pre-pass, then the main loop
(`while current < end` with `end = start + 30*months days`: exactly
`30*months` one-day iterations). -/
def ElyxRun (C : Ctx σ) : SimState σ :=
  runDays C (travelWeeks C.cfg) (30 * C.cfg.months) C.cfg.start (initState C)

/-! ## Emission lemmas -/

@[simp] theorem emitMessage_rng (ids : Nat → String) (s : SimState σ) (t : DT)
    (a b tx : String) (tg rl : List String) :
    (emitMessage ids s t a b tx tg rl).1.rng = s.rng := rfl

@[simp] theorem emitMessage_lastEx (ids : Nat → String) (s : SimState σ) (t : DT)
    (a b tx : String) (tg rl : List String) :
    (emitMessage ids s t a b tx tg rl).1.lastEx = s.lastEx := rfl

@[simp] theorem emitMessage_trace (ids : Nat → String) (s : SimState σ) (t : DT)
    (a b tx : String) (tg rl : List String) :
    (emitMessage ids s t a b tx tg rl).1.trace
      = s.trace ++ [Ev.msg (emitMessage ids s t a b tx tg rl).2] := rfl

@[simp] theorem emitDecision_rng (ids : Nat → String) (s : SimState σ) (t : DT)
    (a k ti ra : String) (tr : Triggers) (ef : Effects) :
    (emitDecision ids s t a k ti ra tr ef).1.rng = s.rng := rfl

@[simp] theorem emitDecision_lastEx (ids : Nat → String) (s : SimState σ) (t : DT)
    (a k ti ra : String) (tr : Triggers) (ef : Effects) :
    (emitDecision ids s t a k ti ra tr ef).1.lastEx = s.lastEx := rfl

@[simp] theorem emitDecision_trace (ids : Nat → String) (s : SimState σ) (t : DT)
    (a k ti ra : String) (tr : Triggers) (ef : Effects) :
    (emitDecision ids s t a k ti ra tr ef).1.trace
      = s.trace ++ [Ev.dec (emitDecision ids s t a k ti ra tr ef).2] := rfl

@[simp] theorem msgs_emitMessage (ids : Nat → String) (s : SimState σ) (t : DT)
    (a b tx : String) (tg rl : List String) :
    msgs (emitMessage ids s t a b tx tg rl).1
      = msgs s ++ [(emitMessage ids s t a b tx tg rl).2] := by
  simp [msgs, emitMessage]

@[simp] theorem decs_emitMessage (ids : Nat → String) (s : SimState σ) (t : DT)
    (a b tx : String) (tg rl : List String) :
    decs (emitMessage ids s t a b tx tg rl).1 = decs s := by
  simp [decs, emitMessage]

@[simp] theorem tsts_emitMessage (ids : Nat → String) (s : SimState σ) (t : DT)
    (a b tx : String) (tg rl : List String) :
    tsts (emitMessage ids s t a b tx tg rl).1 = tsts s := by
  simp [tsts, emitMessage]

@[simp] theorem msgs_emitDecision (ids : Nat → String) (s : SimState σ) (t : DT)
    (a k ti ra : String) (tr : Triggers) (ef : Effects) :
    msgs (emitDecision ids s t a k ti ra tr ef).1 = msgs s := by
  simp [msgs, emitDecision]

@[simp] theorem decs_emitDecision (ids : Nat → String) (s : SimState σ) (t : DT)
    (a k ti ra : String) (tr : Triggers) (ef : Effects) :
    decs (emitDecision ids s t a k ti ra tr ef).1
      = decs s ++ [(emitDecision ids s t a k ti ra tr ef).2] := by
  simp [decs, emitDecision]

@[simp] theorem tsts_emitDecision (ids : Nat → String) (s : SimState σ) (t : DT)
    (a k ti ra : String) (tr : Triggers) (ef : Effects) :
    tsts (emitDecision ids s t a k ti ra tr ef).1 = tsts s := by
  simp [tsts, emitDecision]

@[simp] theorem emitMessage_msg_ts (ids : Nat → String) (s : SimState σ) (t : DT)
    (a b tx : String) (tg rl : List String) :
    (emitMessage ids s t a b tx tg rl).2.ts = iso t := rfl

@[simp] theorem emitMessage_msg_day (ids : Nat → String) (s : SimState σ) (t : DT)
    (a b tx : String) (tg rl : List String) :
    (emitMessage ids s t a b tx tg rl).2.day = dateStr t.date := rfl

@[simp] theorem emitMessage_msg_sender_role (ids : Nat → String) (s : SimState σ)
    (t : DT) (a b tx : String) (tg rl : List String) :
    (emitMessage ids s t a b tx tg rl).2.sender_role = (ROLES a).2 := rfl

@[simp] theorem emitMessage_msg_rel (ids : Nat → String) (s : SimState σ)
    (t : DT) (a b tx : String) (tg rl : List String) :
    (emitMessage ids s t a b tx tg rl).2.related_decision_ids = rl := rfl

@[simp] theorem emitMessage_msg_tags (ids : Nat → String) (s : SimState σ)
    (t : DT) (a b tx : String) (tg rl : List String) :
    (emitMessage ids s t a b tx tg rl).2.tags = tg := rfl

@[simp] theorem emitDecision_dec_ts (ids : Nat → String) (s : SimState σ) (t : DT)
    (a k ti ra : String) (tr : Triggers) (ef : Effects) :
    (emitDecision ids s t a k ti ra tr ef).2.ts = iso t := rfl

@[simp] theorem emitDecision_dec_actor_role (ids : Nat → String) (s : SimState σ)
    (t : DT) (a k ti ra : String) (tr : Triggers) (ef : Effects) :
    (emitDecision ids s t a k ti ra tr ef).2.actor_role = (ROLES a).2 := rfl

@[simp] theorem emitDecision_dec_actor_id (ids : Nat → String) (s : SimState σ)
    (t : DT) (a k ti ra : String) (tr : Triggers) (ef : Effects) :
    (emitDecision ids s t a k ti ra tr ef).2.actor_id = a := rfl

/-! ## Trace-extension machinery

Every event generator only appends to the trace; `Extends P s s'` says
`s'` arose from `s` by appending events whose messages all satisfy `P`. -/

/-- Lift a message predicate to events (decisions/tests impose nothing). -/
def EvOk (P : Message → Prop) : Ev → Prop
  | .msg m => P m
  | _ => True

def Extends (P : Message → Prop) (s s' : SimState σ) : Prop :=
  ∃ L, s'.trace = s.trace ++ L ∧ ∀ e ∈ L, EvOk P e

theorem Extends.same_trace {P : Message → Prop} {s s' : SimState σ}
    (h : s'.trace = s.trace) : Extends P s s' :=
  ⟨[], by simp [h], by simp⟩

theorem Extends.refl {P : Message → Prop} (s : SimState σ) : Extends P s s :=
  Extends.same_trace rfl

theorem Extends.trans {P : Message → Prop} {s s' s'' : SimState σ}
    (h1 : Extends P s s') (h2 : Extends P s' s'') : Extends P s s'' := by
  obtain ⟨L1, e1, f1⟩ := h1
  obtain ⟨L2, e2, f2⟩ := h2
  refine ⟨L1 ++ L2, by simp [e2, e1], ?_⟩
  intro e he
  rcases List.mem_append.mp he with h | h
  · exact f1 e h
  · exact f2 e h

theorem Extends.step_msg {P : Message → Prop} {s s' : SimState σ}
    (h : Extends P s s') {ids : Nat → String} {t : DT} {a b tx : String}
    {tg rl : List String} (hP : P (emitMessage ids s' t a b tx tg rl).2) :
    Extends P s (emitMessage ids s' t a b tx tg rl).1 := by
  refine h.trans ⟨[Ev.msg (emitMessage ids s' t a b tx tg rl).2], by simp, ?_⟩
  intro e he
  simp only [List.mem_singleton] at he
  subst he
  exact hP

theorem Extends.step_dec {P : Message → Prop} {s s' : SimState σ}
    (h : Extends P s s') {ids : Nat → String} {t : DT} {a k ti ra : String}
    {tr : Triggers} {ef : Effects} :
    Extends P s (emitDecision ids s' t a k ti ra tr ef).1 := by
  refine h.trans ⟨[Ev.dec (emitDecision ids s' t a k ti ra tr ef).2], by simp, ?_⟩
  intro e he
  simp only [List.mem_singleton] at he
  subst he
  trivial

theorem Extends.iterate {P : Message → Prop} {f : SimState σ → SimState σ}
    (hf : ∀ s, Extends P s (f s)) :
    ∀ (k : Nat) (s : SimState σ), Extends P s (f^[k] s)
  | 0, s => Extends.refl s
  | k + 1, s => by
      rw [Function.iterate_succ_apply]
      exact (hf s).trans (Extends.iterate hf k (f s))

theorem Extends.step_tst {P : Message → Prop} {s s' : SimState σ} {r : σ}
    {tt : Test} {n : Nat} (h : Extends P s s') :
    Extends P s { s' with rng := r, trace := s'.trace ++ [Ev.tst tt], idCtr := n } := by
  refine h.trans ⟨[Ev.tst tt], rfl, ?_⟩
  intro e he
  simp only [List.mem_singleton] at he
  subst he
  trivial

/-- Shape of the hypothesis used to push a message predicate through a
generator: `P` holds of any message emitted with a datetime on `cur`. -/
def EmitsOk (cur : Date) (P : Message → Prop) : Prop :=
  ∀ (ids : Nat → String) (s' : SimState σ) (t : DT) (a b tx : String)
    (tg rl : List String), t.date = cur → P (emitMessage ids s' t a b tx tg rl).2

theorem Extends_memberReachesOut {P : Message → Prop} (C : Ctx σ) (cur : Date)
    (ds : String) (trv : Bool) (s : SimState σ)
    (hP : EmitsOk (σ := σ) cur P) :
    Extends P s (memberReachesOut C cur ds trv s) := by
  simp only [memberReachesOut]
  split_ifs
  · exact (((Extends.same_trace rfl).step_msg
        (hP _ _ _ _ _ _ _ _ rfl)).step_msg
        (hP _ _ _ _ _ _ _ _ rfl)).step_dec.step_msg (hP _ _ _ _ _ _ _ _ rfl)
  · exact ((Extends.same_trace rfl).step_msg
        (hP _ _ _ _ _ _ _ _ rfl)).step_msg (hP _ _ _ _ _ _ _ _ rfl)

theorem Extends_conciergeCheckin {P : Message → Prop} (C : Ctx σ) (cur : Date)
    (ds : String) (trv : Bool) (s : SimState σ)
    (hP : EmitsOk (σ := σ) cur P) :
    Extends P s (conciergeCheckin C cur ds trv s) := by
  simp only [conciergeCheckin]
  exact (Extends.refl s).step_msg (hP _ _ _ _ _ _ _ _ rfl)

theorem Extends_exerciseUpdate {P : Message → Prop} (C : Ctx σ) (cur : Date)
    (ds : String) (ap : ℚ) (trv : Bool) (s : SimState σ)
    (hP : EmitsOk (σ := σ) cur P) :
    Extends P s (exerciseUpdate C cur ds ap trv s) := by
  simp only [exerciseUpdate]
  exact (Extends.same_trace rfl).step_dec.step_msg (hP _ _ _ _ _ _ _ _ rfl)

theorem Extends_quarterlyPanel {P : Message → Prop} (C : Ctx σ) (cur : Date)
    (ds : String) (s : SimState σ) (hP : EmitsOk (σ := σ) cur P) :
    Extends P s (quarterlyPanel C cur ds s) := by
  simp only [quarterlyPanel]
  exact ((Extends.refl s).step_tst.step_msg
      (hP _ _ _ _ _ _ _ _ rfl)).step_dec.step_msg (hP _ _ _ _ _ _ _ _ rfl)

theorem Extends_stepMember {P : Message → Prop} (C : Ctx σ)
    (travel : List (Nat × Nat)) (cur : Date) (s : SimState σ)
    (hP : EmitsOk (σ := σ) cur P) :
    Extends P s (stepMember C travel cur s) := by
  simp only [stepMember]
  split_ifs
  · exact (Extends.same_trace rfl).trans
      (Extends.iterate (fun s0 => Extends_memberReachesOut C cur _ _ s0 hP) _ _)
  · exact Extends.refl s

theorem Extends_stepCheckin {P : Message → Prop} (C : Ctx σ)
    (travel : List (Nat × Nat)) (cur : Date) (s : SimState σ)
    (hP : EmitsOk (σ := σ) cur P) :
    Extends P s (stepCheckin C travel cur s) := by
  simp only [stepCheckin]
  split_ifs
  · exact Extends_conciergeCheckin C cur _ _ s hP
  · exact Extends.refl s

theorem Extends_stepExercise {P : Message → Prop} (C : Ctx σ)
    (travel : List (Nat × Nat)) (cur : Date) (s : SimState σ)
    (hP : EmitsOk (σ := σ) cur P) :
    Extends P s (stepExercise C travel cur s) := by
  simp only [stepExercise]
  split_ifs
  · exact Extends_exerciseUpdate C cur _ _ _ s hP
  · exact Extends.refl s

theorem Extends_stepPanel {P : Message → Prop} (C : Ctx σ) (cur : Date)
    (s : SimState σ) (hP : EmitsOk (σ := σ) cur P) :
    Extends P s (stepPanel C cur s) := by
  simp only [stepPanel]
  split_ifs
  · exact Extends_quarterlyPanel C cur _ s hP
  · exact Extends.refl s

/-- Everything a day step appends satisfies any predicate that holds of
messages emitted on that day. -/
theorem Extends_stepDay {P : Message → Prop} (C : Ctx σ)
    (travel : List (Nat × Nat)) (cur : Date) (s : SimState σ)
    (hP : EmitsOk (σ := σ) cur P) :
    Extends P s (stepDay C travel cur s) := by
  simp only [stepDay]
  exact (((Extends_stepMember C travel cur s hP).trans
      (Extends_stepCheckin C travel cur _ hP)).trans
      (Extends_stepExercise C travel cur _ hP)).trans
      (Extends_stepPanel C cur _ hP)

theorem Extends_runDays {P : Message → Prop} (C : Ctx σ)
    (travel : List (Nat × Nat)) (hP : ∀ cur, EmitsOk (σ := σ) cur P) :
    ∀ (n : Nat) (cur : Date) (s : SimState σ),
      Extends P s (runDays C travel n cur s)
  | 0, _, s => Extends.refl s
  | n + 1, cur, s =>
      (Extends_stepDay C travel cur s (hP cur)).trans
        (Extends_runDays C travel hP n (nextDay cur) (stepDay C travel cur s))

theorem mem_msgs {s : SimState σ} {m : Message} :
    m ∈ msgs s ↔ Ev.msg m ∈ s.trace := by
  unfold msgs
  rw [List.mem_filterMap]
  constructor
  · rintro ⟨e, he, hfe⟩
    cases e <;> simp_all
  · intro h
    exact ⟨Ev.msg m, h, rfl⟩

/-- All messages of a full run satisfy any predicate that holds of every
emitted message. -/
theorem run_messages_ok {P : Message → Prop} (C : Ctx σ)
    (hP : ∀ cur, EmitsOk (σ := σ) cur P) :
    ∀ m ∈ msgs (ElyxRun C), P m := by
  intro m hm
  obtain ⟨L, hL, hF⟩ :=
    Extends_runDays C (travelWeeks C.cfg) hP (30 * C.cfg.months) C.cfg.start
      (initState C)
  have ht : Ev.msg m ∈ (runDays C (travelWeeks C.cfg) (30 * C.cfg.months)
      C.cfg.start (initState C)).trace := mem_msgs.mp hm
  rw [hL] at ht
  have : Ev.msg m ∈ L := by
    simpa [initState] using ht
  exact hF _ this

/-- Every emitted message's ISO timestamp literally extends its `day`
field by the `T`-separated time of day. -/
theorem emitsOk_tsExtendsDay (cur : Date) :
    EmitsOk (σ := σ) cur (fun m => ∃ rest, m.ts = m.day ++ "T" ++ rest) := by
  intro ids s' t a b tx tg rl _
  exact ⟨String.mk (timeChars t).tail, rfl⟩

/-- C10: for every Message emitted during a run, the `day` field equals
the calendar-date portion (`YYYY-MM-DD`) of the `ts` timestamp — `ts`
is `day` followed by `"T"` and the time-of-day/offset tail, both being
rendered from the same UTC+8 datetime at creation. -/
theorem C10_message_day_matches_ts (C : Ctx σ) :
    (msgs (ElyxRun C)).Forall fun m => ∃ rest, m.ts = m.day ++ "T" ++ rest := by
  rw [List.forall_iff_forall_mem]
  exact run_messages_ok C emitsOk_tsExtendsDay

/-! ## Additional projection lemmas -/

@[simp] theorem msgs_set_rng (s : SimState σ) (r : σ) :
    msgs { s with rng := r } = msgs s := rfl

@[simp] theorem decs_set_rng (s : SimState σ) (r : σ) :
    decs { s with rng := r } = decs s := rfl

@[simp] theorem tsts_set_rng (s : SimState σ) (r : σ) :
    tsts { s with rng := r } = tsts s := rfl

@[simp] theorem msgs_set_lastEx (s : SimState σ) (x : Date) :
    msgs { s with lastEx := x } = msgs s := rfl

@[simp] theorem decs_set_lastEx (s : SimState σ) (x : Date) :
    decs { s with lastEx := x } = decs s := rfl

@[simp] theorem tsts_set_lastEx (s : SimState σ) (x : Date) :
    tsts { s with lastEx := x } = tsts s := rfl

@[simp] theorem msgs_append_tst (s : SimState σ) (r : σ) (tt : Test) (n : Nat) :
    msgs { s with rng := r, trace := s.trace ++ [Ev.tst tt], idCtr := n }
      = msgs s := by
  simp [msgs]

@[simp] theorem decs_append_tst (s : SimState σ) (r : σ) (tt : Test) (n : Nat) :
    decs { s with rng := r, trace := s.trace ++ [Ev.tst tt], idCtr := n }
      = decs s := by
  simp [decs]

@[simp] theorem tsts_append_tst (s : SimState σ) (r : σ) (tt : Test) (n : Nat) :
    tsts { s with rng := r, trace := s.trace ++ [Ev.tst tt], idCtr := n }
      = tsts s ++ [tt] := by
  simp [tsts]

/-! ## Concrete instances used by witnesses and counterexamples -/

/-- A trivial RNG-interface instance over `Nat` states (the theorems
below that quantify over `RNG σ` hold for the Mersenne-Twister instance
in particular; this small instance makes counterexamples computable). -/
def natRNG : RNG Nat :=
  { next := fun s => (s, s + 1), seedInt := fun i => i.toNat,
    seedStr := fun k => k.length }

/-- A uuid stream for concrete runs. -/
def idsNum : Nat → String := fun k => toString k

/-- The §8 example configuration. -/
def cfg42 : Config :=
  { start := ⟨2024, 1, 1⟩, months := 1, seed := 42,
    diagnostic_panel_months := [1], adherence_probability := 4/5,
    max_member_threads_per_week := 3, travel_week_every_n_weeks := 4,
    exercise_update_days := 14 }

def C42 : Ctx Nat := ⟨cfg42, natRNG, idsNum⟩

/-! ## C8: the ApoB panel threshold -/

theorem panelRec_intensify_iff (a : Nat) :
    panelRec a =
        "Intensify nutrition + discuss pharmacotherapy candidly; recheck in 90 days."
      ↔ 110 ≤ a := by
  unfold panelRec
  split_ifs with h
  · simpa using h
  · constructor
    · intro heq
      exact absurd heq (by decide)
    · intro hge
      exact absurd hge h

theorem panelRec_nutrition_iff (a : Nat) :
    panelRec a = "Nutrition-first + fiber protocol; recheck in 90 days."
      ↔ a < 110 := by
  unfold panelRec
  split_ifs with h
  · constructor
    · intro heq
      exact absurd heq.symm (by decide)
    · intro hlt
      omega
  · simp
    omega

theorem panelRec_intensify_list_iff (a : Nat) :
    [panelRec a] =
        ["Intensify nutrition + discuss pharmacotherapy candidly; recheck in 90 days."]
      ↔ 110 ≤ a := by
  simp only [List.cons.injEq, and_true]
  exact panelRec_intensify_iff a

theorem panelRec_nutrition_list_iff (a : Nat) :
    [panelRec a] = ["Nutrition-first + fiber protocol; recheck in 90 days."]
      ↔ a < 110 := by
  simp only [List.cons.injEq, and_true]
  exact panelRec_nutrition_iff a

/-- C8: every quarterly panel appends exactly one Medical decision whose
recommendation (in `effects.plan_changes` and as the tail of the
rationale) is the intensify-plus-pharmacotherapy branch iff the drawn
ApoB is at least 110, and the nutrition-first branch iff it is below. -/
theorem C8_panel_threshold (C : Ctx σ) (cur : Date) (ds : String)
    (s : SimState σ) :
    ∃ d : Decision,
      decs (quarterlyPanel C cur ds s) = decs s ++ [d] ∧
      d.actor_id = "U-WARREN" ∧
      d.effects.plan_changes = [panelRec (C.rng.randint 90 115 s.rng).1] ∧
      (∃ pre, d.rationale = pre ++ panelRec (C.rng.randint 90 115 s.rng).1) ∧
      (d.effects.plan_changes =
          ["Intensify nutrition + discuss pharmacotherapy candidly; recheck in 90 days."]
        ↔ 110 ≤ (C.rng.randint 90 115 s.rng).1) ∧
      (d.effects.plan_changes =
          ["Nutrition-first + fiber protocol; recheck in 90 days."]
        ↔ (C.rng.randint 90 115 s.rng).1 < 110) := by
  simp only [quarterlyPanel, decs_emitMessage, decs_emitDecision,
    decs_append_tst, decs_set_rng]
  exact ⟨_, rfl, rfl, rfl, ⟨_, rfl⟩, panelRec_intensify_list_iff _,
    panelRec_nutrition_list_iff _⟩

/-! ## C2: the weekly-quota reseed -/

/-- C2 (the part that holds): the weekly member-thread quota is a pure
function of (year, week, configured seed, cap) — whatever generator
state precedes the computation, the drawn quota is the same, because
`self.rng.seed(f"wk-{year}-{week}-{seed}")` installs a state that
depends only on the key. -/
theorem C2_quota_pure_of_week (C : Ctx σ) (st st' : σ) (y w cap : Nat) :
    (weeklyMemberThreads C st y w cap).1
      = (weeklyMemberThreads C st' y w cap).1 := rfl

/-- C2 counterexample: computing a quota does change the subsequent
run-level draws.  With a concrete RNG-interface instance, the first draw
after a quota computation differs from the first draw without it: the
reseed replaced the generator state (5) rather than restoring it. -/
theorem C2_counterexample :
    (natRNG.next (weeklyMemberThreads (Ctx.mk cfg42 natRNG idsNum) 5 2024 3 3).2).1
      ≠ (natRNG.next 5).1 := by decide

/-! ## C4: the travel-week pre-pass -/

/-- C4 counterexample: with period N = 4, week index 0 (a multiple of
the period) is not marked travel — the pre-pass marks `i % N == 3`, not
`i % N == 0`. -/
theorem C4_counterexample :
    ¬ (isoWeekPair cfg42.start ∈ travelWeeks cfg42
        ↔ 0 % cfg42.travel_week_every_n_weeks = 0) := by decide

/-- C4 (amended): a (year, week) pair is marked travel iff it is the ISO
week of `start + 7*i days` for some pre-pass index `i ≡ 3 (mod N)`; in
particular for N ≤ 3 (with N ≥ 1) no week is ever marked travel, so the
"at least one travel week on a long horizon" part fails for N ∈ {1,2,3}. -/
theorem C4_travel_weeks (cfg : Config) :
    (∀ yw, yw ∈ travelWeeks cfg ↔
      ∃ i, i < numTravelIters cfg ∧
        i % cfg.travel_week_every_n_weeks = 3 ∧
        isoWeekPair (addDays cfg.start (7 * i)) = yw) ∧
    (1 ≤ cfg.travel_week_every_n_weeks ∧ cfg.travel_week_every_n_weeks ≤ 3 →
      travelWeeks cfg = []) := by
  constructor
  · intro yw
    unfold travelWeeks
    rw [List.mem_filterMap]
    constructor
    · rintro ⟨i, hi, hsome⟩
      rw [List.mem_range] at hi
      by_cases hmod : i % cfg.travel_week_every_n_weeks = 3
      · rw [if_pos hmod, Option.some.injEq] at hsome
        exact ⟨i, hi, hmod, hsome⟩
      · rw [if_neg hmod] at hsome
        exact absurd hsome (by simp)
    · rintro ⟨i, hi, hmod, heq⟩
      exact ⟨i, List.mem_range.mpr hi, by rw [if_pos hmod, heq]⟩
  · rintro ⟨h1, h3⟩
    unfold travelWeeks
    rw [List.filterMap_eq_nil_iff]
    intro i _
    rw [if_neg]
    intro hmod
    have := Nat.mod_lt i (show 0 < cfg.travel_week_every_n_weeks from h1)
    omega

/-- Witness for the amended C4 at a concrete configuration with N = 1:
no travel weeks at all. -/
theorem C4_travel_weeks_witness :
    travelWeeks { cfg42 with travel_week_every_n_weeks := 1 } = [] :=
  (C4_travel_weeks { cfg42 with travel_week_every_n_weeks := 1 }).2
    (by decide)

/-! ## C7: hours accounting -/

@[simp] theorem emitMessage_hours (ids : Nat → String) (s : SimState σ) (t : DT)
    (a b tx : String) (tg rl : List String) :
    (emitMessage ids s t a b tx tg rl).1.hours
      = if (ROLES a).2 ∈ hourRoles ∧ (ROLES a).2 ≠ "Member" then
          addHours s.hours (ROLES a).2 (1/10)
        else s.hours := rfl

@[simp] theorem emitDecision_hours (ids : Nat → String) (s : SimState σ) (t : DT)
    (a k ti ra : String) (tr : Triggers) (ef : Effects) :
    (emitDecision ids s t a k ti ra tr ef).1.hours
      = if (ROLES a).2 ∈ hourRoles then addHours s.hours (ROLES a).2 (1/2)
        else s.hours := rfl

/-- Messages sent by a given role. -/
def msgCountByRole (s : SimState σ) (role : String) : Nat :=
  ((msgs s).filter fun m => decide (m.sender_role = role)).length

/-- Decisions authored by a given role. -/
def decCountByRole (s : SimState σ) (role : String) : Nat :=
  ((decs s).filter fun d => decide (d.actor_role = role)).length

/-- The accounting invariant: each of the six buckets holds exactly
0.1 per message sent plus 0.5 per decision authored by that role, and
every non-bucket key (in particular the Member) holds zero. -/
def HoursInv (s : SimState σ) : Prop :=
  ∀ role : String,
    s.hours role =
      if role ∈ hourRoles then
        (1/10 : ℚ) * msgCountByRole s role + (1/2) * decCountByRole s role
      else 0

theorem hoursInv_emitMessage {s : SimState σ} (h : HoursInv s)
    (ids : Nat → String) (t : DT) (a b tx : String) (tg rl : List String) :
    HoursInv (emitMessage ids s t a b tx tg rl).1 := by
  intro role
  have hc : msgCountByRole (emitMessage ids s t a b tx tg rl).1 role
      = msgCountByRole s role + (if (ROLES a).2 = role then 1 else 0) := by
    simp only [msgCountByRole, msgs_emitMessage, List.filter_append,
      List.length_append, emitMessage_msg_sender_role]
    congr 1
    split_ifs with hsr <;> simp [hsr]
  have hd : decCountByRole (emitMessage ids s t a b tx tg rl).1 role
      = decCountByRole s role := by
    simp [decCountByRole]
  rw [emitMessage_hours, hc, hd]
  by_cases hca : (ROLES a).2 ∈ hourRoles ∧ (ROLES a).2 ≠ "Member"
  · rw [if_pos hca]
    unfold addHours
    by_cases hrr : role = (ROLES a).2
    · rw [if_pos hrr, h role, if_pos (hrr ▸ hca.1), if_pos (hrr ▸ hca.1),
        if_pos hrr.symm]
      push_cast
      ring
    · rw [if_neg hrr, h role]
      by_cases hrole : role ∈ hourRoles
      · rw [if_pos hrole, if_pos hrole, if_neg (fun he => hrr he.symm)]
        simp
      · rw [if_neg hrole, if_neg hrole]
  · rw [if_neg hca, h role]
    by_cases hrole : role ∈ hourRoles
    · have hne : (ROLES a).2 ≠ role := by
        intro he
        apply hca
        refine ⟨he ▸ hrole, ?_⟩
        intro hmem
        rw [← he, hmem] at hrole
        revert hrole
        decide
      rw [if_pos hrole, if_pos hrole, if_neg hne]
      simp
    · rw [if_neg hrole, if_neg hrole]

theorem hoursInv_emitDecision {s : SimState σ} (h : HoursInv s)
    (ids : Nat → String) (t : DT) (a k ti ra : String) (tr : Triggers)
    (ef : Effects) :
    HoursInv (emitDecision ids s t a k ti ra tr ef).1 := by
  intro role
  have hc : msgCountByRole (emitDecision ids s t a k ti ra tr ef).1 role
      = msgCountByRole s role := by
    simp [msgCountByRole]
  have hd : decCountByRole (emitDecision ids s t a k ti ra tr ef).1 role
      = decCountByRole s role + (if (ROLES a).2 = role then 1 else 0) := by
    simp only [decCountByRole, decs_emitDecision, List.filter_append,
      List.length_append, emitDecision_dec_actor_role]
    congr 1
    split_ifs with hsr <;> simp [hsr]
  rw [emitDecision_hours, hc, hd]
  by_cases hca : (ROLES a).2 ∈ hourRoles
  · rw [if_pos hca]
    unfold addHours
    by_cases hrr : role = (ROLES a).2
    · rw [if_pos hrr, h role, if_pos (hrr ▸ hca), if_pos (hrr ▸ hca),
        if_pos hrr.symm]
      push_cast
      ring
    · rw [if_neg hrr, h role]
      by_cases hrole : role ∈ hourRoles
      · rw [if_pos hrole, if_pos hrole, if_neg (fun he => hrr he.symm)]
        simp
      · rw [if_neg hrole, if_neg hrole]
  · rw [if_neg hca, h role]
    by_cases hrole : role ∈ hourRoles
    · have hne : (ROLES a).2 ≠ role := fun he => hca (he ▸ hrole)
      rw [if_pos hrole, if_pos hrole, if_neg hne]
      simp
    · rw [if_neg hrole, if_neg hrole]

theorem hoursInv_append_tst {s : SimState σ} (h : HoursInv s) (r : σ)
    (tt : Test) (n : Nat) :
    HoursInv { s with rng := r, trace := s.trace ++ [Ev.tst tt], idCtr := n } := by
  intro role
  simpa [msgCountByRole, decCountByRole] using h role

theorem hoursInv_memberReachesOut {s : SimState σ} (h : HoursInv s) (C : Ctx σ)
    (cur : Date) (ds : String) (trv : Bool) :
    HoursInv (memberReachesOut C cur ds trv s) := by
  simp only [memberReachesOut]
  split_ifs <;>
    (repeat
      first
        | apply hoursInv_emitMessage
        | apply hoursInv_emitDecision) <;>
    exact h

theorem hoursInv_conciergeCheckin {s : SimState σ} (h : HoursInv s) (C : Ctx σ)
    (cur : Date) (ds : String) (trv : Bool) :
    HoursInv (conciergeCheckin C cur ds trv s) := by
  simp only [conciergeCheckin]
  apply hoursInv_emitMessage
  exact h

theorem hoursInv_exerciseUpdate {s : SimState σ} (h : HoursInv s) (C : Ctx σ)
    (cur : Date) (ds : String) (ap : ℚ) (trv : Bool) :
    HoursInv (exerciseUpdate C cur ds ap trv s) := by
  simp only [exerciseUpdate]
  apply hoursInv_emitMessage
  apply hoursInv_emitDecision
  exact h

theorem hoursInv_quarterlyPanel {s : SimState σ} (h : HoursInv s) (C : Ctx σ)
    (cur : Date) (ds : String) :
    HoursInv (quarterlyPanel C cur ds s) := by
  simp only [quarterlyPanel]
  apply hoursInv_emitMessage
  apply hoursInv_emitDecision
  apply hoursInv_emitMessage
  exact hoursInv_append_tst h _ _ _

theorem hoursInv_iterate {f : SimState σ → SimState σ}
    (hf : ∀ s, HoursInv s → HoursInv (f s)) :
    ∀ (k : Nat) (s : SimState σ), HoursInv s → HoursInv (f^[k] s)
  | 0, _, h => h
  | k + 1, s, h => by
      rw [Function.iterate_succ_apply]
      exact hoursInv_iterate hf k (f s) (hf s h)

theorem hoursInv_stepDay {s : SimState σ} (h : HoursInv s) (C : Ctx σ)
    (travel : List (Nat × Nat)) (cur : Date) :
    HoursInv (stepDay C travel cur s) := by
  simp only [stepDay, stepMember, stepCheckin, stepExercise, stepPanel]
  split_ifs <;>
    (repeat
      first
        | apply hoursInv_quarterlyPanel
        | apply hoursInv_exerciseUpdate
        | apply hoursInv_conciergeCheckin
        | apply hoursInv_iterate
            (fun s0 h0 => hoursInv_memberReachesOut h0 C cur _ _)) <;>
    exact h

theorem hoursInv_runDays (C : Ctx σ) (travel : List (Nat × Nat)) :
    ∀ (n : Nat) (cur : Date) (s : SimState σ),
      HoursInv s → HoursInv (runDays C travel n cur s)
  | 0, _, _, h => h
  | n + 1, cur, s, h =>
      hoursInv_runDays C travel n (nextDay cur) _ (hoursInv_stepDay h C travel cur)

theorem hoursInv_initState (C : Ctx σ) : HoursInv (initState C) := by
  intro role
  simp only [initState]
  split_ifs <;> simp [msgCountByRole, decCountByRole, msgs, decs]

theorem hoursInv_run (C : Ctx σ) : HoursInv (ElyxRun C) :=
  hoursInv_runDays C _ _ _ _ (hoursInv_initState C)

theorem hours_le_emitMessage (ids : Nat → String) (s : SimState σ) (t : DT)
    (a b tx : String) (tg rl : List String) (role : String) :
    s.hours role ≤ (emitMessage ids s t a b tx tg rl).1.hours role := by
  rw [emitMessage_hours]
  split_ifs
  · unfold addHours
    split_ifs with hr
    · rw [hr]
      exact le_add_of_nonneg_right (by norm_num)
    · exact le_refl _
  · exact le_refl _

theorem hours_le_emitDecision (ids : Nat → String) (s : SimState σ) (t : DT)
    (a k ti ra : String) (tr : Triggers) (ef : Effects) (role : String) :
    s.hours role ≤ (emitDecision ids s t a k ti ra tr ef).1.hours role := by
  rw [emitDecision_hours]
  split_ifs
  · unfold addHours
    split_ifs with hr
    · rw [hr]
      exact le_add_of_nonneg_right (by norm_num)
    · exact le_refl _
  · exact le_refl _

/-- C7: hours only ever increase at each record emission, and at the end
of any run each of the six buckets holds exactly 0.1 per message sent
plus 0.5 per decision authored by that role, while the Member bucket
(never a key of the hours dict) holds zero.  (The source accrues 0.1 and
0.5 as binary floats; the model uses the exact rationals.) -/
theorem C7_hours_accounting (C : Ctx σ) :
    (∀ (ids : Nat → String) (s : SimState σ) (t : DT) (a b tx : String)
        (tg rl : List String) (role : String),
        s.hours role ≤ (emitMessage ids s t a b tx tg rl).1.hours role) ∧
    (∀ (ids : Nat → String) (s : SimState σ) (t : DT) (a k ti ra : String)
        (tr : Triggers) (ef : Effects) (role : String),
        s.hours role ≤ (emitDecision ids s t a k ti ra tr ef).1.hours role) ∧
    hourRoles.Forall (fun role =>
        (ElyxRun C).hours role
          = (1/10 : ℚ) * msgCountByRole (ElyxRun C) role
            + (1/2) * decCountByRole (ElyxRun C) role) ∧
    (ElyxRun C).hours "Member" = 0 := by
  refine ⟨hours_le_emitMessage, hours_le_emitDecision, ?_, ?_⟩
  · rw [List.forall_iff_forall_mem]
    intro role hrole
    have h := hoursInv_run C role
    rwa [if_pos hrole] at h
  · have h := hoursInv_run C "Member"
    rwa [if_neg (by decide)] at h

/-! ## C9: referential integrity (no forward references) -/

/-- No forward references: any related-decision id on a message at
trace position `i` is the id of a decision at an earlier position. -/
def NFR (evs : List Ev) : Prop :=
  ∀ i m, evs.get? i = some (Ev.msg m) →
    ∀ r ∈ m.related_decision_ids,
      ∃ j d, j < i ∧ evs.get? j = some (Ev.dec d) ∧ d.id = r

theorem get?_some_lt {α : Type} {l : List α} {j : Nat} {a : α}
    (h : l.get? j = some a) : j < l.length := by
  by_contra hc
  push_neg at hc
  rw [List.get?_eq_none.mpr hc] at h
  exact Option.noConfusion h

theorem NFR_append_nonmsg {evs : List Ev} (h : NFR evs) {e : Ev}
    (he : ∀ m, e ≠ Ev.msg m) : NFR (evs ++ [e]) := by
  intro i m him r hr
  by_cases hi : i < evs.length
  · rw [List.get?_append hi] at him
    obtain ⟨j, d, hj, hjd, hid⟩ := h i m him r hr
    exact ⟨j, d, hj, by rw [List.get?_append (lt_trans hj hi)]; exact hjd, hid⟩
  · push_neg at hi
    rw [List.get?_append_right hi] at him
    rcases Nat.lt_or_ge (i - evs.length) 1 with hlt | hge
    · have h0 : i - evs.length = 0 := by omega
      rw [h0] at him
      simp only [List.get?, Option.some.injEq] at him
      exact absurd him (he m)
    · have hnone : ([e].get? (i - evs.length)) = none := by
        rw [List.get?_eq_none]
        simpa using hge
      rw [hnone] at him
      exact Option.noConfusion him

theorem NFR_append_msg {evs : List Ev} (h : NFR evs) {m : Message}
    (hrel : ∀ r ∈ m.related_decision_ids, ∃ d, Ev.dec d ∈ evs ∧ d.id = r) :
    NFR (evs ++ [Ev.msg m]) := by
  intro i m' him r hr
  by_cases hi : i < evs.length
  · rw [List.get?_append hi] at him
    obtain ⟨j, d, hj, hjd, hid⟩ := h i m' him r hr
    exact ⟨j, d, hj, by rw [List.get?_append (lt_trans hj hi)]; exact hjd, hid⟩
  · push_neg at hi
    rw [List.get?_append_right hi] at him
    rcases Nat.lt_or_ge (i - evs.length) 1 with hlt | hge
    · have h0 : i - evs.length = 0 := by omega
      rw [h0] at him
      simp only [List.get?, Option.some.injEq, Ev.msg.injEq] at him
      subst him
      obtain ⟨d, hd, hid⟩ := hrel r hr
      obtain ⟨j, hj⟩ := List.get?_of_mem hd
      have hjl : j < evs.length := get?_some_lt hj
      exact ⟨j, d, by omega, by rw [List.get?_append hjl]; exact hj, hid⟩
    · have hnone : ([Ev.msg m].get? (i - evs.length)) = none := by
        rw [List.get?_eq_none]
        simpa using hge
      rw [hnone] at him
      exact Option.noConfusion him

theorem nfr_emitDecision {s : SimState σ} (h : NFR s.trace)
    (ids : Nat → String) (t : DT) (a k ti ra : String) (tr : Triggers)
    (ef : Effects) : NFR (emitDecision ids s t a k ti ra tr ef).1.trace := by
  rw [emitDecision_trace]
  exact NFR_append_nonmsg h (by intro m hm; exact Ev.noConfusion hm)

theorem nfr_append_tst {s : SimState σ} (h : NFR s.trace) (r : σ) (tt : Test)
    (n : Nat) :
    NFR (SimState.trace
      { s with rng := r, trace := s.trace ++ [Ev.tst tt], idCtr := n }) :=
  NFR_append_nonmsg h (by intro m hm; exact Ev.noConfusion hm)

theorem nfr_emitMessage {s : SimState σ} (h : NFR s.trace)
    (ids : Nat → String) (t : DT) (a b tx : String) (tg rl : List String)
    (hrel : ∀ r ∈ rl, ∃ d, Ev.dec d ∈ s.trace ∧ d.id = r) :
    NFR (emitMessage ids s t a b tx tg rl).1.trace := by
  rw [emitMessage_trace]
  exact NFR_append_msg h hrel

theorem nfr_nil_rel {s : SimState σ} :
    ∀ r ∈ ([] : List String), ∃ d, Ev.dec d ∈ s.trace ∧ d.id = r := by
  intro r hr
  exact absurd hr (List.not_mem_nil r)

theorem nfr_memberReachesOut {s : SimState σ} (h : NFR s.trace) (C : Ctx σ)
    (cur : Date) (ds : String) (trv : Bool) :
    NFR (memberReachesOut C cur ds trv s).trace := by
  simp only [memberReachesOut]
  split_ifs
  · apply nfr_emitMessage
    · apply nfr_emitDecision
      apply nfr_emitMessage
      · apply nfr_emitMessage
        · exact h
        · exact nfr_nil_rel
      · exact nfr_nil_rel
    · intro r hr
      rw [List.mem_singleton] at hr
      subst hr
      refine ⟨_, ?_, rfl⟩
      rw [emitDecision_trace]
      exact List.mem_append_right _ (List.mem_singleton.mpr rfl)
  · apply nfr_emitMessage
    · apply nfr_emitMessage
      · exact h
      · exact nfr_nil_rel
    · exact nfr_nil_rel

theorem nfr_conciergeCheckin {s : SimState σ} (h : NFR s.trace) (C : Ctx σ)
    (cur : Date) (ds : String) (trv : Bool) :
    NFR (conciergeCheckin C cur ds trv s).trace := by
  simp only [conciergeCheckin]
  exact nfr_emitMessage h _ _ _ _ _ _ _ nfr_nil_rel

theorem nfr_exerciseUpdate {s : SimState σ} (h : NFR s.trace) (C : Ctx σ)
    (cur : Date) (ds : String) (ap : ℚ) (trv : Bool) :
    NFR (exerciseUpdate C cur ds ap trv s).trace := by
  simp only [exerciseUpdate]
  apply nfr_emitMessage
  · exact nfr_emitDecision h _ _ _ _ _ _ _ _
  · intro r hr
    rw [List.mem_singleton] at hr
    subst hr
    refine ⟨_, ?_, rfl⟩
    rw [emitDecision_trace]
    exact List.mem_append_right _ (List.mem_singleton.mpr rfl)

theorem nfr_quarterlyPanel {s : SimState σ} (h : NFR s.trace) (C : Ctx σ)
    (cur : Date) (ds : String) :
    NFR (quarterlyPanel C cur ds s).trace := by
  simp only [quarterlyPanel]
  apply nfr_emitMessage
  · apply nfr_emitDecision
    apply nfr_emitMessage
    · exact nfr_append_tst h _ _ _
    · exact nfr_nil_rel
  · intro r hr
    rw [List.mem_singleton] at hr
    subst hr
    refine ⟨_, ?_, rfl⟩
    rw [emitDecision_trace]
    exact List.mem_append_right _ (List.mem_singleton.mpr rfl)

theorem nfr_iterate {f : SimState σ → SimState σ}
    (hf : ∀ s, NFR s.trace → NFR (f s).trace) :
    ∀ (k : Nat) (s : SimState σ), NFR s.trace → NFR (f^[k] s).trace
  | 0, _, h => h
  | k + 1, s, h => by
      rw [Function.iterate_succ_apply]
      exact nfr_iterate hf k (f s) (hf s h)

theorem nfr_stepDay {s : SimState σ} (h : NFR s.trace) (C : Ctx σ)
    (travel : List (Nat × Nat)) (cur : Date) :
    NFR (stepDay C travel cur s).trace := by
  simp only [stepDay, stepMember, stepCheckin, stepExercise, stepPanel]
  split_ifs <;>
    (repeat
      first
        | apply nfr_quarterlyPanel
        | apply nfr_exerciseUpdate
        | apply nfr_conciergeCheckin
        | apply nfr_iterate (fun s0 h0 => nfr_memberReachesOut h0 C cur _ _)) <;>
    exact h

theorem nfr_runDays (C : Ctx σ) (travel : List (Nat × Nat)) :
    ∀ (n : Nat) (cur : Date) (s : SimState σ),
      NFR s.trace → NFR (runDays C travel n cur s).trace
  | 0, _, _, h => h
  | n + 1, cur, s, h =>
      nfr_runDays C travel n (nextDay cur) _ (nfr_stepDay h C travel cur)

theorem mem_decs {s : SimState σ} {d : Decision} :
    d ∈ decs s ↔ Ev.dec d ∈ s.trace := by
  unfold decs
  rw [List.mem_filterMap]
  constructor
  · rintro ⟨e, he, hfe⟩
    cases e <;> simp_all
  · intro h
    exact ⟨Ev.dec d, h, rfl⟩

/-- The weaker sequence-level reading: every related id on any message
is the id of some decision in the decision sequence. -/
def RelClosed (s : SimState σ) : Prop :=
  ∀ m ∈ msgs s, ∀ r ∈ m.related_decision_ids, ∃ d, d ∈ decs s ∧ d.id = r

/-- C9: in every run, each related-decision id on a Message was the id
of a Decision already appended to the trace strictly before the Message
was created (no forward references), and in particular refers to a
member of the final decision sequence. -/
theorem C9_referential_integrity (C : Ctx σ) :
    NFR (ElyxRun C).trace ∧ RelClosed (ElyxRun C) := by
  have hn : NFR (ElyxRun C).trace := by
    apply nfr_runDays
    intro i m him
    simp [initState] at him
  refine ⟨hn, ?_⟩
  intro m hm r hr
  obtain ⟨i, hi⟩ := List.get?_of_mem (mem_msgs.mp hm)
  obtain ⟨j, d, _, hjd, hid⟩ := hn i m hi r hr
  exact ⟨d, mem_decs.mpr (List.get?_mem hjd), hid⟩

/-! ## C1: determinism up to the uuid stream -/

@[simp] theorem emitMessage_idCtr (ids : Nat → String) (s : SimState σ) (t : DT)
    (a b tx : String) (tg rl : List String) :
    (emitMessage ids s t a b tx tg rl).1.idCtr = s.idCtr + 1 := rfl

@[simp] theorem emitDecision_idCtr (ids : Nat → String) (s : SimState σ) (t : DT)
    (a k ti ra : String) (tr : Triggers) (ef : Effects) :
    (emitDecision ids s t a k ti ra tr ef).1.idCtr = s.idCtr + 1 := rfl

/-- Clear the uuid-derived fields of a message. -/
def eraseMsg (m : Message) : Message :=
  { m with id := "", related_decision_ids := [] }

/-- Clear the uuid-derived fields of a decision. -/
def eraseDec (d : Decision) : Decision :=
  { d with
      id := ""
      triggers := { d.triggers with message_ids := [], test_ids := [] } }

/-- Clear the uuid-derived field of a test. -/
def eraseTst (t : Test) : Test := { t with id := "" }

def eraseEv : Ev → Ev
  | .msg m => .msg (eraseMsg m)
  | .dec d => .dec (eraseDec d)
  | .tst t => .tst (eraseTst t)

def eraseTrace (l : List Ev) : List Ev := l.map eraseEv

/-- Two states that agree on everything except uuid-derived record
fields (the id-counter tracks how many uuids were consumed and agrees). -/
def IdsAgnostic (s s' : SimState σ) : Prop :=
  s.rng = s'.rng ∧ s.hours = s'.hours ∧ s.lastEx = s'.lastEx ∧
    s.idCtr = s'.idCtr ∧ eraseTrace s.trace = eraseTrace s'.trace

theorem agn_emitMessage {s s' : SimState σ} (h : IdsAgnostic s s')
    {ids ids' : Nat → String} {t : DT} {a b tx : String} {tg : List String}
    {rl rl' : List String} :
    IdsAgnostic (emitMessage ids s t a b tx tg rl).1
      (emitMessage ids' s' t a b tx tg rl').1 := by
  obtain ⟨h1, h2, h3, h4, h5⟩ := h
  refine ⟨h1, ?_, h3, by simp [h4], ?_⟩
  · rw [emitMessage_hours, emitMessage_hours, h2]
  · rw [emitMessage_trace, emitMessage_trace]
    unfold eraseTrace at h5 ⊢
    rw [List.map_append, List.map_append, h5]
    rfl

theorem agn_emitDecision {s s' : SimState σ} (h : IdsAgnostic s s')
    {ids ids' : Nat → String} {t : DT} {a k ti ra : String}
    {tr tr' : Triggers} (htr : tr.metrics = tr'.metrics) {ef : Effects} :
    IdsAgnostic (emitDecision ids s t a k ti ra tr ef).1
      (emitDecision ids' s' t a k ti ra tr' ef).1 := by
  obtain ⟨h1, h2, h3, h4, h5⟩ := h
  refine ⟨h1, ?_, h3, by simp [h4], ?_⟩
  · rw [emitDecision_hours, emitDecision_hours, h2]
  · rw [emitDecision_trace, emitDecision_trace]
    unfold eraseTrace at h5 ⊢
    rw [List.map_append, List.map_append, h5]
    have hd : eraseDec (emitDecision ids s t a k ti ra tr ef).2
        = eraseDec (emitDecision ids' s' t a k ti ra tr' ef).2 := by
      unfold eraseDec emitDecision
      dsimp only
      rw [htr]
    simp only [List.map_cons, List.map_nil, eraseEv, hd]

theorem agn_append_tst {s s' : SimState σ} (h : IdsAgnostic s s') {r : σ}
    {t t' : Test} (ht : eraseTst t = eraseTst t') {n : Nat} :
    IdsAgnostic { s with rng := r, trace := s.trace ++ [Ev.tst t], idCtr := n }
      { s' with rng := r, trace := s'.trace ++ [Ev.tst t'], idCtr := n } := by
  obtain ⟨h1, h2, h3, h4, h5⟩ := h
  refine ⟨rfl, h2, h3, rfl, ?_⟩
  unfold eraseTrace at h5 ⊢
  rw [List.map_append, List.map_append, h5]
  simp [eraseEv, ht]

theorem filterMap_msg_eraseEv (l : List Ev) :
    ((l.map eraseEv).filterMap fun e => match e with | .msg m => some m | _ => none)
      = (l.filterMap fun e => match e with | .msg m => some m | _ => none).map
          eraseMsg := by
  induction l with
  | nil => rfl
  | cons e t ih => cases e <;> simp [eraseEv, ih]

theorem filterMap_dec_eraseEv (l : List Ev) :
    ((l.map eraseEv).filterMap fun e => match e with | .dec d => some d | _ => none)
      = (l.filterMap fun e => match e with | .dec d => some d | _ => none).map
          eraseDec := by
  induction l with
  | nil => rfl
  | cons e t ih => cases e <;> simp [eraseEv, ih]

theorem filterMap_tst_eraseEv (l : List Ev) :
    ((l.map eraseEv).filterMap fun e => match e with | .tst t => some t | _ => none)
      = (l.filterMap fun e => match e with | .tst t => some t | _ => none).map
          eraseTst := by
  induction l with
  | nil => rfl
  | cons e t ih => cases e <;> simp [eraseEv, ih]

theorem agn_msgs_erased {s s' : SimState σ} (h : IdsAgnostic s s') :
    (msgs s).map eraseMsg = (msgs s').map eraseMsg := by
  have h5 := h.2.2.2.2
  unfold eraseTrace at h5
  unfold msgs
  rw [← filterMap_msg_eraseEv, ← filterMap_msg_eraseEv, h5]

@[simp] theorem countWeek_set_rng (s : SimState σ) (r : σ) (y w : Nat) :
    countWeekMemberThreads { s with rng := r } y w
      = countWeekMemberThreads s y w := rfl

theorem agn_count {s s' : SimState σ} (h : IdsAgnostic s s') (y w : Nat) :
    countWeekMemberThreads s y w = countWeekMemberThreads s' y w := by
  have hm := agn_msgs_erased h
  unfold countWeekMemberThreads
  have key : ∀ l : List Message,
      ((l.map eraseMsg).filter fun m =>
        decide (m.sender_role = "Member" ∧ tsWeekPair m.ts = (y, w))).length
      = (l.filter fun m =>
        decide (m.sender_role = "Member" ∧ tsWeekPair m.ts = (y, w))).length := by
    intro l
    rw [List.filter_map]
    rw [List.length_map]
    congr 1
  rw [← key (msgs s), ← key (msgs s'), hm]

theorem agn_iterate {f g : SimState σ → SimState σ}
    (hfg : ∀ s s', IdsAgnostic s s' → IdsAgnostic (f s) (g s')) :
    ∀ (k : Nat) (s s' : SimState σ), IdsAgnostic s s' →
      IdsAgnostic (f^[k] s) (g^[k] s')
  | 0, _, _, h => h
  | k + 1, s, s', h => by
      rw [Function.iterate_succ_apply, Function.iterate_succ_apply]
      exact agn_iterate hfg k (f s) (g s') (hfg s s' h)

theorem agn_memberReachesOut {s s' : SimState σ} (h : IdsAgnostic s s')
    (cfg : Config) (rng : RNG σ) (ids ids' : Nat → String) (cur : Date)
    (ds : String) (trv : Bool) :
    IdsAgnostic (memberReachesOut ⟨cfg, rng, ids⟩ cur ds trv s)
      (memberReachesOut ⟨cfg, rng, ids'⟩ cur ds trv s') := by
  simp only [memberReachesOut]
  rw [h.1]
  have hbase : IdsAgnostic (σ := σ)
      { s with rng := (rng.choiceIdx topics.length s'.rng).2 }
      { s' with rng := (rng.choiceIdx topics.length s'.rng).2 } :=
    ⟨rfl, h.2.1, h.2.2.1, h.2.2.2.1, h.2.2.2.2⟩
  split_ifs
  · exact agn_emitMessage
      (agn_emitDecision (agn_emitMessage (agn_emitMessage hbase)) (by rfl))
  · exact agn_emitMessage (agn_emitMessage hbase)

theorem agn_conciergeCheckin {s s' : SimState σ} (h : IdsAgnostic s s')
    (cfg : Config) (rng : RNG σ) (ids ids' : Nat → String) (cur : Date)
    (ds : String) (trv : Bool) :
    IdsAgnostic (conciergeCheckin ⟨cfg, rng, ids⟩ cur ds trv s)
      (conciergeCheckin ⟨cfg, rng, ids'⟩ cur ds trv s') := by
  simp only [conciergeCheckin]
  exact agn_emitMessage h

theorem agn_exerciseUpdate {s s' : SimState σ} (h : IdsAgnostic s s')
    (cfg : Config) (rng : RNG σ) (ids ids' : Nat → String) (cur : Date)
    (ds : String) (ap : ℚ) (trv : Bool) :
    IdsAgnostic (exerciseUpdate ⟨cfg, rng, ids⟩ cur ds ap trv s)
      (exerciseUpdate ⟨cfg, rng, ids'⟩ cur ds ap trv s') := by
  simp only [exerciseUpdate]
  rw [h.1]
  have hbase : IdsAgnostic (σ := σ)
      { s with lastEx := cur, rng := (rng.randUnit s'.rng).2 }
      { s' with lastEx := cur, rng := (rng.randUnit s'.rng).2 } :=
    ⟨rfl, h.2.1, rfl, h.2.2.2.1, h.2.2.2.2⟩
  exact agn_emitMessage (agn_emitDecision hbase (by rfl))

theorem agn_quarterlyPanel {s s' : SimState σ} (h : IdsAgnostic s s')
    (cfg : Config) (rng : RNG σ) (ids ids' : Nat → String) (cur : Date)
    (ds : String) :
    IdsAgnostic (quarterlyPanel ⟨cfg, rng, ids⟩ cur ds s)
      (quarterlyPanel ⟨cfg, rng, ids'⟩ cur ds s') := by
  simp only [quarterlyPanel]
  rw [h.1, h.2.2.2.1]
  refine agn_emitMessage (agn_emitDecision (agn_emitMessage ?_) (by rfl))
  exact agn_append_tst h (by unfold eraseTst; dsimp only)

theorem agn_decs_erased {s s' : SimState σ} (h : IdsAgnostic s s') :
    (decs s).map eraseDec = (decs s').map eraseDec := by
  have h5 := h.2.2.2.2
  unfold eraseTrace at h5
  unfold decs
  rw [← filterMap_dec_eraseEv, ← filterMap_dec_eraseEv, h5]

theorem agn_tsts_erased {s s' : SimState σ} (h : IdsAgnostic s s') :
    (tsts s).map eraseTst = (tsts s').map eraseTst := by
  have h5 := h.2.2.2.2
  unfold eraseTrace at h5
  unfold tsts
  rw [← filterMap_tst_eraseEv, ← filterMap_tst_eraseEv, h5]

theorem agn_stepMember {s s' : SimState σ} (h : IdsAgnostic s s')
    (cfg : Config) (rng : RNG σ) (ids ids' : Nat → String)
    (travel : List (Nat × Nat)) (cur : Date) :
    IdsAgnostic (stepMember ⟨cfg, rng, ids⟩ travel cur s)
      (stepMember ⟨cfg, rng, ids'⟩ travel cur s') := by
  simp only [stepMember]
  split_ifs with hw
  · rw [h.1]
    simp only [countWeek_set_rng]
    rw [agn_count h (isoWeekPair cur).1 (isoWeekPair cur).2]
    exact agn_iterate
      (fun a b hab => agn_memberReachesOut hab cfg rng ids ids' cur _ _) _ _ _
      ⟨rfl, h.2.1, h.2.2.1, h.2.2.2.1, h.2.2.2.2⟩
  · exact h

theorem agn_stepCheckin {s s' : SimState σ} (h : IdsAgnostic s s')
    (cfg : Config) (rng : RNG σ) (ids ids' : Nat → String)
    (travel : List (Nat × Nat)) (cur : Date) :
    IdsAgnostic (stepCheckin ⟨cfg, rng, ids⟩ travel cur s)
      (stepCheckin ⟨cfg, rng, ids'⟩ travel cur s') := by
  simp only [stepCheckin]
  split_ifs with hw
  · exact agn_conciergeCheckin h cfg rng ids ids' cur _ _
  · exact h

theorem agn_stepExercise {s s' : SimState σ} (h : IdsAgnostic s s')
    (cfg : Config) (rng : RNG σ) (ids ids' : Nat → String)
    (travel : List (Nat × Nat)) (cur : Date) :
    IdsAgnostic (stepExercise ⟨cfg, rng, ids⟩ travel cur s)
      (stepExercise ⟨cfg, rng, ids'⟩ travel cur s') := by
  simp only [stepExercise]
  rw [h.2.2.1]
  split_ifs with hc
  · exact agn_exerciseUpdate h cfg rng ids ids' cur _ _ _
  · exact h

theorem agn_stepPanel {s s' : SimState σ} (h : IdsAgnostic s s')
    (cfg : Config) (rng : RNG σ) (ids ids' : Nat → String) (cur : Date) :
    IdsAgnostic (stepPanel ⟨cfg, rng, ids⟩ cur s)
      (stepPanel ⟨cfg, rng, ids'⟩ cur s') := by
  simp only [stepPanel]
  split_ifs with hc
  · exact agn_quarterlyPanel h cfg rng ids ids' cur _
  · exact h

theorem agn_stepDay {s s' : SimState σ} (h : IdsAgnostic s s')
    (cfg : Config) (rng : RNG σ) (ids ids' : Nat → String)
    (travel : List (Nat × Nat)) (cur : Date) :
    IdsAgnostic (stepDay ⟨cfg, rng, ids⟩ travel cur s)
      (stepDay ⟨cfg, rng, ids'⟩ travel cur s') := by
  simp only [stepDay]
  exact agn_stepPanel
    (agn_stepExercise
      (agn_stepCheckin (agn_stepMember h cfg rng ids ids' travel cur)
        cfg rng ids ids' travel cur)
      cfg rng ids ids' travel cur)
    cfg rng ids ids' cur

theorem agn_runDays (cfg : Config) (rng : RNG σ) (ids ids' : Nat → String)
    (travel : List (Nat × Nat)) :
    ∀ (n : Nat) (cur : Date) (s s' : SimState σ), IdsAgnostic s s' →
      IdsAgnostic (runDays ⟨cfg, rng, ids⟩ travel n cur s)
        (runDays ⟨cfg, rng, ids'⟩ travel n cur s')
  | 0, _, _, _, h => h
  | n + 1, cur, s, s', h =>
      agn_runDays cfg rng ids ids' travel n (nextDay cur) _ _
        (agn_stepDay h cfg rng ids ids' travel cur)

theorem agn_run (cfg : Config) (rng : RNG σ) (ids ids' : Nat → String) :
    IdsAgnostic (ElyxRun ⟨cfg, rng, ids⟩) (ElyxRun ⟨cfg, rng, ids'⟩) :=
  agn_runDays cfg rng ids ids' _ _ _ _ _ ⟨rfl, rfl, rfl, rfl, rfl⟩

/-- C1 (amended): for a fixed configuration and seeded generator, two
runs agree on everything except the uuid-derived fields: after erasing
record ids and the id-valued reference fields (`related_decision_ids`,
`triggers.message_ids`, `triggers.test_ids`), the message, decision and
test sequences and the hours dict are identical whatever uuid streams
the two runs consumed. -/
theorem C1_deterministic_up_to_ids (cfg : Config) (rng : RNG σ)
    (ids ids' : Nat → String) :
    (msgs (ElyxRun ⟨cfg, rng, ids⟩)).map eraseMsg
        = (msgs (ElyxRun ⟨cfg, rng, ids'⟩)).map eraseMsg ∧
    (decs (ElyxRun ⟨cfg, rng, ids⟩)).map eraseDec
        = (decs (ElyxRun ⟨cfg, rng, ids'⟩)).map eraseDec ∧
    (tsts (ElyxRun ⟨cfg, rng, ids⟩)).map eraseTst
        = (tsts (ElyxRun ⟨cfg, rng, ids'⟩)).map eraseTst ∧
    (ElyxRun ⟨cfg, rng, ids⟩).hours = (ElyxRun ⟨cfg, rng, ids'⟩).hours := by
  have h := agn_run cfg rng ids ids'
  exact ⟨agn_msgs_erased h, agn_decs_erased h, agn_tsts_erased h, h.2.1⟩

set_option maxRecDepth 100000 in
/-- C1 counterexample: record ids come from `uuid.uuid4()`, which is not
a function of (configuration, seed).  Two runs of the same configuration
and seed that consume different uuid streams (as two independent
processes do) produce different record ids — here the very first
message's id differs — so the output is not byte-identical including
every record id. -/
theorem C1_counterexample :
    ((msgs (ElyxRun ⟨cfg42, natRNG, fun _ => "a"⟩)).get? 0).map (fun m => m.id)
      ≠ ((msgs (ElyxRun ⟨cfg42, natRNG, fun _ => "b"⟩)).get? 0).map
          (fun m => m.id) := by
  decide

/-! ## C3: message ordering -/

/-- Lexicographic (strict) order on character lists. -/
def lexLtB : List Char → List Char → Bool
  | [], [] => false
  | [], _ :: _ => true
  | _ :: _, [] => false
  | a :: as, b :: bs =>
      if a.toNat < b.toNat then true
      else if b.toNat < a.toNat then false
      else lexLtB as bs

/-- Lexicographic order on strings; on the fixed-width ISO timestamps
produced by `iso` it coincides with chronological order. -/
def tsLe (a b : String) : Prop := ¬ lexLtB b.data a.data = true

instance (a b : String) : Decidable (tsLe a b) := by
  unfold tsLe
  infer_instance

/-- The claim's ordering property: along the append order, timestamps
are non-decreasing. -/
def ChronoByAppend (l : List Message) : Prop :=
  l.Pairwise fun a b => tsLe a.ts b.ts

/-- A configuration whose exercise updates fire daily, so that on
2024-01-10 an exercise message (14:10) is appended before the panel
routing message (08:30). -/
def cfgC3 : Config := { cfg42 with exercise_update_days := 1 }

set_option maxRecDepth 100000 in
/-- C3 counterexample: the message sequence is not chronologically
ordered.  The quarterly panel emits morning-hour messages (08:30,
12:15), but the panel check runs after the member/check-in/exercise
checks of the same day, whose messages carry later hours — here the
2024-01-10 exercise message at 14:10 is appended right before the panel
routing message at 08:30. -/
theorem C3_counterexample :
    ¬ ChronoByAppend (msgs (ElyxRun ⟨cfgC3, natRNG, idsNum⟩)) := by
  unfold ChronoByAppend
  decide

theorem monthLen_le_31 (y m : Nat) : monthLen y m ≤ 31 := by
  unfold monthLen
  split_ifs <;> omega

theorem msgs_of_extends {P : Message → Prop} {s s' : SimState σ}
    (h : Extends P s s') :
    ∃ M : List Message, msgs s' = msgs s ++ M ∧ ∀ m ∈ M, P m := by
  obtain ⟨L, hL, hF⟩ := h
  refine ⟨L.filterMap fun e => match e with | .msg m => some m | _ => none,
    ?_, ?_⟩
  · unfold msgs
    rw [hL, List.filterMap_append]
  · intro m hm
    rw [List.mem_filterMap] at hm
    obtain ⟨e, he, hfe⟩ := hm
    have hok := hF e he
    cases e
    case msg m0 =>
      simp only [Option.some.injEq] at hfe
      exact hfe ▸ hok
    case dec d0 => exact Option.noConfusion hfe
    case tst t0 => exact Option.noConfusion hfe

theorem emitsOk_day_eq (cur : Date) :
    EmitsOk (σ := σ) cur (fun m => m.day = dateStr cur) := by
  intro ids s' t a b tx tg rl ht
  rw [emitMessage_msg_day, ht]

theorem dayMono_runDays (C : Ctx σ) (travel : List (Nat × Nat)) :
    ∀ (n : Nat) (cur : Date) (s : SimState σ), cur.Valid →
      cur.y + n ≤ 9999 →
      (msgs s).Pairwise (fun a b => dayKey a.day ≤ dayKey b.day) →
      (∀ m ∈ msgs s, dayKey m.day ≤ dayNum cur) →
      (msgs (runDays C travel n cur s)).Pairwise
        (fun a b => dayKey a.day ≤ dayKey b.day)
  | 0, _, _, _, _, hp, _ => hp
  | n + 1, cur, s, hv, hy, hp, hbound => by
      obtain ⟨M, hM, hPM⟩ :=
        msgs_of_extends (Extends_stepDay C travel cur s (emitsOk_day_eq cur))
      have hkey : dayKey (dateStr cur) = dayNum cur := by
        apply dayKey_dateStr
        · omega
        · have := hv.2.2.1
          omega
        · have h31 := monthLen_le_31 cur.y cur.m
          have := hv.2.2.2.2
          omega
      have hMd : ∀ m ∈ M, dayKey m.day = dayNum cur := by
        intro m hm
        rw [hPM m hm, hkey]
      have hp1 : (msgs (stepDay C travel cur s)).Pairwise
          (fun a b => dayKey a.day ≤ dayKey b.day) := by
        rw [hM, List.pairwise_append]
        refine ⟨hp, ?_, ?_⟩
        · apply List.pairwise_of_forall_mem_list
          intro a ha b hb
          rw [hMd a ha, hMd b hb]
        · intro a ha b hb
          rw [hMd b hb]
          exact hbound a ha
      have hb1 : ∀ m ∈ msgs (stepDay C travel cur s),
          dayKey m.day ≤ dayNum (nextDay cur) := by
        intro m hm
        rw [hM] at hm
        rw [dayNum_nextDay hv]
        rcases List.mem_append.mp hm with hmo | hmn
        · exact le_trans (hbound m hmo) (Nat.le_succ _)
        · rw [hMd m hmn]
          exact Nat.le_succ _
      exact dayMono_runDays C travel n (nextDay cur) _ (nextDay_valid hv)
        (by have := nextDay_y_le (x := cur); omega) hp1 hb1

/-- C3 (amended): the message sequence is monotone at calendar-day
granularity: a message appended before another carries an
earlier-or-equal calendar day.  (Within a day the dispatch order is
member threads → check-in → exercise → panel, but panel messages use
morning hours, so same-day timestamps are not monotone — see the
counterexample.) -/
theorem C3_day_monotone (C : Ctx σ) (hv : C.cfg.start.Valid)
    (hy : C.cfg.start.y + 30 * C.cfg.months ≤ 9999) :
    (msgs (ElyxRun C)).Pairwise fun a b => dayKey a.day ≤ dayKey b.day := by
  apply dayMono_runDays C (travelWeeks C.cfg) (30 * C.cfg.months)
    C.cfg.start (initState C) hv hy
  · simp [initState, msgs]
  · intro m hm
    simp [initState, msgs] at hm

/-- Witness for the amended C3 at the §8 example configuration. -/
theorem C3_day_monotone_witness :
    (msgs (ElyxRun C42)).Pairwise fun a b => dayKey a.day ≤ dayKey b.day :=
  C3_day_monotone C42 (by decide) (by decide)

/-! ## C6: the weekly member-thread cap -/

/-- The week's quota as a pure function of (year, week, seed, cap). -/
def quotaVal (C : Ctx σ) (y w : Nat) : Nat :=
  (C.rng.randint 2 C.cfg.max_member_threads_per_week
    (C.rng.seedStr
      ("wk-" ++ toString y ++ "-" ++ toString w ++ "-" ++ toString C.cfg.seed))).1

theorem weeklyMemberThreads_fst (C : Ctx σ) (st : σ) (y w : Nat) :
    (weeklyMemberThreads C st y w C.cfg.max_member_threads_per_week).1
      = quotaVal C y w := rfl

theorem randint_le {r : RNG σ} {a b : Nat} (h : a ≤ b) (st : σ) :
    a ≤ (r.randint a b st).1 ∧ (r.randint a b st).1 ≤ b := by
  unfold RNG.randint
  have hpos : 0 < b + 1 - a := by omega
  have := Nat.mod_lt (r.next st).1 hpos
  dsimp only
  omega

theorem quotaVal_bounds (C : Ctx σ)
    (hcap : 2 ≤ C.cfg.max_member_threads_per_week) (y w : Nat) :
    2 ≤ quotaVal C y w ∧
      quotaVal C y w ≤ C.cfg.max_member_threads_per_week :=
  randint_le hcap _

theorem tsWeekPair_iso_of_valid {cur : Date} (hv : cur.Valid)
    (hy : cur.y ≤ 9999) (hh mi : Nat) :
    tsWeekPair (iso ⟨cur, hh, mi⟩) = isoWeekPair cur := by
  apply tsWeekPair_iso
  · dsimp only
    omega
  · have := hv.2.2.1
    dsimp only
    omega
  · have h31 := monthLen_le_31 cur.y cur.m
    have := hv.2.2.2.2
    dsimp only
    omega

theorem countWeek_emit_nonmember {s : SimState σ} {y w : Nat}
    {ids : Nat → String} {t : DT} (a : String) {b tx : String}
    {tg rl : List String} (ha : (ROLES a).2 ≠ "Member") :
    countWeekMemberThreads (emitMessage ids s t a b tx tg rl).1 y w
      = countWeekMemberThreads s y w := by
  unfold countWeekMemberThreads
  rw [msgs_emitMessage, List.filter_append, List.length_append,
    List.filter_cons, List.filter_nil]
  have hf : (decide ((emitMessage ids s t a b tx tg rl).2.sender_role = "Member"
      ∧ tsWeekPair (emitMessage ids s t a b tx tg rl).2.ts = (y, w))) = false := by
    rw [decide_eq_false_iff_not]
    rintro ⟨h1, _⟩
    rw [emitMessage_msg_sender_role] at h1
    exact ha h1
  rw [hf]
  simp

theorem countWeek_emitDecision {s : SimState σ} {y w : Nat}
    (ids : Nat → String) (t : DT) (a k ti ra : String) (tr : Triggers)
    (ef : Effects) :
    countWeekMemberThreads (emitDecision ids s t a k ti ra tr ef).1 y w
      = countWeekMemberThreads s y w := by
  unfold countWeekMemberThreads
  rw [msgs_emitDecision]

theorem countWeek_append_tst {s : SimState σ} {y w : Nat} (r : σ) (tt : Test)
    (n : Nat) :
    countWeekMemberThreads
      { s with rng := r, trace := s.trace ++ [Ev.tst tt], idCtr := n } y w
      = countWeekMemberThreads s y w := by
  unfold countWeekMemberThreads
  rw [msgs_append_tst]

theorem countWeek_emit_member {s : SimState σ} {y w : Nat}
    {ids : Nat → String} {cur : Date} (hv : cur.Valid) (hy : cur.y ≤ 9999)
    (hh mi : Nat) (b tx : String) (tg rl : List String) :
    countWeekMemberThreads
      (emitMessage ids s ⟨cur, hh, mi⟩ "M-001" b tx tg rl).1 y w
      = countWeekMemberThreads s y w
        + (if isoWeekPair cur = (y, w) then 1 else 0) := by
  unfold countWeekMemberThreads
  rw [msgs_emitMessage, List.filter_append, List.length_append,
    List.filter_cons, List.filter_nil]
  have hts : (emitMessage ids s ⟨cur, hh, mi⟩ "M-001" b tx tg rl).2.ts
      = iso ⟨cur, hh, mi⟩ := rfl
  by_cases hyw : isoWeekPair cur = (y, w)
  · have hd : (decide ((emitMessage ids s ⟨cur, hh, mi⟩ "M-001" b tx tg rl).2.sender_role = "Member"
        ∧ tsWeekPair (emitMessage ids s ⟨cur, hh, mi⟩ "M-001" b tx tg rl).2.ts = (y, w))) = true := by
      rw [decide_eq_true_eq]
      refine ⟨rfl, ?_⟩
      rw [hts, tsWeekPair_iso_of_valid hv hy, hyw]
    rw [hd, if_pos hyw]
    simp
  · have hd : (decide ((emitMessage ids s ⟨cur, hh, mi⟩ "M-001" b tx tg rl).2.sender_role = "Member"
        ∧ tsWeekPair (emitMessage ids s ⟨cur, hh, mi⟩ "M-001" b tx tg rl).2.ts = (y, w))) = false := by
      rw [decide_eq_false_iff_not]
      rintro ⟨_, h2⟩
      rw [hts, tsWeekPair_iso_of_valid hv hy] at h2
      exact hyw h2
    rw [hd, if_neg hyw]
    simp

theorem countWeek_memberReachesOut {s : SimState σ} {y w : Nat} (C : Ctx σ)
    {cur : Date} (hv : cur.Valid) (hy : cur.y ≤ 9999) (ds : String)
    (trv : Bool) :
    countWeekMemberThreads (memberReachesOut C cur ds trv s) y w
      = countWeekMemberThreads s y w
        + (if isoWeekPair cur = (y, w) then 1 else 0) := by
  simp only [memberReachesOut]
  split_ifs with hr hw hw2
  · rw [countWeek_emit_nonmember "U-CARLA" (by decide),
      countWeek_emitDecision,
      countWeek_emit_nonmember "U-RUBY" (by decide),
      countWeek_emit_member hv hy, countWeek_set_rng, if_pos hw]
  · rw [countWeek_emit_nonmember "U-CARLA" (by decide),
      countWeek_emitDecision,
      countWeek_emit_nonmember "U-RUBY" (by decide),
      countWeek_emit_member hv hy, countWeek_set_rng, if_neg hw]
  · rw [countWeek_emit_nonmember "U-RUBY" (by decide),
      countWeek_emit_member hv hy, countWeek_set_rng, if_pos hw2]
  · rw [countWeek_emit_nonmember "U-RUBY" (by decide),
      countWeek_emit_member hv hy, countWeek_set_rng, if_neg hw2]

theorem countWeek_iterate_mro {y w : Nat} (C : Ctx σ) {cur : Date}
    (hv : cur.Valid) (hy : cur.y ≤ 9999) (ds : String) (trv : Bool) :
    ∀ (k : Nat) (s : SimState σ),
      countWeekMemberThreads ((memberReachesOut C cur ds trv)^[k] s) y w
        = countWeekMemberThreads s y w
          + k * (if isoWeekPair cur = (y, w) then 1 else 0)
  | 0, s => by simp
  | k + 1, s => by
      rw [Function.iterate_succ_apply]
      rw [countWeek_iterate_mro C hv hy ds trv k _]
      rw [countWeek_memberReachesOut C hv hy ds trv]
      ring

theorem countWeek_conciergeCheckin {s : SimState σ} {y w : Nat} (C : Ctx σ)
    (cur : Date) (ds : String) (trv : Bool) :
    countWeekMemberThreads (conciergeCheckin C cur ds trv s) y w
      = countWeekMemberThreads s y w := by
  simp only [conciergeCheckin]
  rw [countWeek_emit_nonmember "U-RUBY" (by decide)]

theorem countWeek_exerciseUpdate {s : SimState σ} {y w : Nat} (C : Ctx σ)
    (cur : Date) (ds : String) (ap : ℚ) (trv : Bool) :
    countWeekMemberThreads (exerciseUpdate C cur ds ap trv s) y w
      = countWeekMemberThreads s y w := by
  simp only [exerciseUpdate]
  rw [countWeek_emit_nonmember "U-RACHEL" (by decide), countWeek_emitDecision]
  rfl

theorem countWeek_quarterlyPanel {s : SimState σ} {y w : Nat} (C : Ctx σ)
    (cur : Date) (ds : String) :
    countWeekMemberThreads (quarterlyPanel C cur ds s) y w
      = countWeekMemberThreads s y w := by
  simp only [quarterlyPanel]
  rw [countWeek_emit_nonmember "U-WARREN" (by decide), countWeek_emitDecision,
    countWeek_emit_nonmember "U-RUBY" (by decide), countWeek_append_tst]

/-- The cap invariant: every ISO week's member-thread count is bounded
by that week's quota. -/
def WeekCapInv (C : Ctx σ) (s : SimState σ) : Prop :=
  ∀ y w, countWeekMemberThreads s y w ≤ quotaVal C y w

theorem weekCapInv_stepMember {s : SimState σ} (C : Ctx σ) {cur : Date}
    (hv : cur.Valid) (hy : cur.y ≤ 9999) (travel : List (Nat × Nat))
    (h : WeekCapInv C s) : WeekCapInv C (stepMember C travel cur s) := by
  simp only [stepMember]
  split_ifs with hw
  · intro y w
    rw [countWeek_iterate_mro C hv hy _ _ _ _]
    simp only [countWeek_set_rng, weeklyMemberThreads_fst]
    by_cases hyw : isoWeekPair cur = (y, w)
    · rw [if_pos hyw]
      have hy1 : (isoWeekPair cur).1 = y := by rw [hyw]
      have hw1 : (isoWeekPair cur).2 = w := by rw [hyw]
      rw [← hy1, ← hw1]
      have hk : (C.rng.randint 0
          (min 2 (quotaVal C (isoWeekPair cur).1 (isoWeekPair cur).2
            - countWeekMemberThreads s (isoWeekPair cur).1 (isoWeekPair cur).2))
          (weeklyMemberThreads C s.rng (isoWeekPair cur).1 (isoWeekPair cur).2
            C.cfg.max_member_threads_per_week).2).1
          ≤ min 2 (quotaVal C (isoWeekPair cur).1 (isoWeekPair cur).2
            - countWeekMemberThreads s (isoWeekPair cur).1 (isoWeekPair cur).2) :=
        (randint_le (Nat.zero_le _) _).2
      have hinv := h (isoWeekPair cur).1 (isoWeekPair cur).2
      omega
    · rw [if_neg hyw]
      have := h y w
      omega
  · exact h

theorem weekCapInv_stepCheckin {s : SimState σ} (C : Ctx σ) (cur : Date)
    (travel : List (Nat × Nat)) (h : WeekCapInv C s) :
    WeekCapInv C (stepCheckin C travel cur s) := by
  simp only [stepCheckin]
  split_ifs
  · intro y w
    rw [countWeek_conciergeCheckin]
    exact h y w
  · exact h

theorem weekCapInv_stepExercise {s : SimState σ} (C : Ctx σ) (cur : Date)
    (travel : List (Nat × Nat)) (h : WeekCapInv C s) :
    WeekCapInv C (stepExercise C travel cur s) := by
  simp only [stepExercise]
  split_ifs
  · intro y w
    rw [countWeek_exerciseUpdate]
    exact h y w
  · exact h

theorem weekCapInv_stepPanel {s : SimState σ} (C : Ctx σ) (cur : Date)
    (h : WeekCapInv C s) : WeekCapInv C (stepPanel C cur s) := by
  simp only [stepPanel]
  split_ifs
  · intro y w
    rw [countWeek_quarterlyPanel]
    exact h y w
  · exact h

theorem weekCapInv_stepDay {s : SimState σ} (C : Ctx σ) {cur : Date}
    (hv : cur.Valid) (hy : cur.y ≤ 9999) (travel : List (Nat × Nat))
    (h : WeekCapInv C s) : WeekCapInv C (stepDay C travel cur s) := by
  simp only [stepDay]
  exact weekCapInv_stepPanel C cur
    (weekCapInv_stepExercise C cur travel
      (weekCapInv_stepCheckin C cur travel
        (weekCapInv_stepMember C hv hy travel h)))

theorem weekCapInv_runDays (C : Ctx σ) (travel : List (Nat × Nat)) :
    ∀ (n : Nat) (cur : Date) (s : SimState σ), cur.Valid →
      cur.y + n ≤ 9999 → WeekCapInv C s →
      WeekCapInv C (runDays C travel n cur s)
  | 0, _, _, _, _, h => h
  | n + 1, cur, s, hv, hy, h =>
      weekCapInv_runDays C travel n (nextDay cur) _ (nextDay_valid hv)
        (by have := nextDay_y_le (x := cur); omega)
        (weekCapInv_stepDay C hv (by omega) travel h)

/-- Monotone filter length: a stricter predicate keeps fewer elements. -/
theorem length_filter_mono {α : Type} (p q : α → Bool)
    (hpq : ∀ x, p x = true → q x = true) :
    ∀ l : List α, (l.filter p).length ≤ (l.filter q).length := by
  intro l
  induction l with
  | nil => simp
  | cons x t ih =>
      rw [List.filter_cons, List.filter_cons]
      by_cases hp : p x = true
      · rw [if_pos hp, if_pos (hpq x hp)]
        simpa using ih
      · rw [if_neg hp]
        by_cases hq : q x = true
        · rw [if_pos hq]
          exact le_trans ih (by simp)
        · rw [if_neg hq]
          exact ih

/-- The claim's count: Member-sent messages tagged `member_initiated`
whose timestamp falls in the given ISO week. -/
def memberInitCount (s : SimState σ) (y w : Nat) : Nat :=
  ((msgs s).filter fun m =>
    decide (m.sender_role = "Member" ∧ "member_initiated" ∈ m.tags ∧
      tsWeekPair m.ts = (y, w))).length

/-- C6: in every run (valid bounded start date), for every ISO
(year, week), the number of Member-sent `member_initiated` messages of
that week is at most the week's quota, and (given the configured cap is
at least 2) that quota lies in [2, cap]. -/
theorem C6_weekly_cap (C : Ctx σ) (hv : C.cfg.start.Valid)
    (hy : C.cfg.start.y + 30 * C.cfg.months ≤ 9999)
    (hcap : 2 ≤ C.cfg.max_member_threads_per_week) :
    ∀ y w,
      memberInitCount (ElyxRun C) y w ≤ quotaVal C y w ∧
      2 ≤ quotaVal C y w ∧
      quotaVal C y w ≤ C.cfg.max_member_threads_per_week := by
  intro y w
  have hinv : WeekCapInv C (ElyxRun C) := by
    apply weekCapInv_runDays C _ _ _ _ hv hy
    intro y0 w0
    simp [countWeekMemberThreads, initState, msgs]
  refine ⟨?_, quotaVal_bounds C hcap y w⟩
  refine le_trans ?_ (hinv y w)
  unfold memberInitCount countWeekMemberThreads
  apply length_filter_mono
  intro m hm
  rw [decide_eq_true_eq] at hm ⊢
  exact ⟨hm.1, hm.2.2⟩

/-- Witness for C6 at the §8 example configuration and ISO week
(2024, 1). -/
theorem C6_weekly_cap_witness :
    memberInitCount (ElyxRun C42) 2024 1 ≤ quotaVal C42 2024 1 ∧
    2 ≤ quotaVal C42 2024 1 ∧
    quotaVal C42 2024 1 ≤ C42.cfg.max_member_threads_per_week :=
  C6_weekly_cap C42 (by decide) (by decide) (by decide) 2024 1

/-! ## C5: the example scenario -/

@[simp] theorem lastEx_append_tst (s : SimState σ) (r : σ) (tt : Test)
    (n : Nat) :
    ({ s with rng := r, trace := s.trace ++ [Ev.tst tt], idCtr := n } :
      SimState σ).lastEx = s.lastEx := rfl

@[simp] theorem lastEx_set_rng (s : SimState σ) (r : σ) :
    ({ s with rng := r } : SimState σ).lastEx = s.lastEx := rfl

@[simp] theorem tsts_set_rng_lastEx (s : SimState σ) (r : σ) (d : Date) :
    tsts ({ s with rng := r, lastEx := d } : SimState σ) = tsts s := rfl

@[simp] theorem decs_set_rng_lastEx (s : SimState σ) (r : σ) (d : Date) :
    decs ({ s with rng := r, lastEx := d } : SimState σ) = decs s := rfl

theorem tsts_memberReachesOut (C : Ctx σ) (cur : Date) (ds : String)
    (trv : Bool) (s : SimState σ) :
    tsts (memberReachesOut C cur ds trv s) = tsts s := by
  simp only [memberReachesOut]
  split_ifs <;> simp

theorem lastEx_memberReachesOut (C : Ctx σ) (cur : Date) (ds : String)
    (trv : Bool) (s : SimState σ) :
    (memberReachesOut C cur ds trv s).lastEx = s.lastEx := by
  simp only [memberReachesOut]
  split_ifs <;> simp

theorem tsts_iterate_mro (C : Ctx σ) (cur : Date) (ds : String) (trv : Bool) :
    ∀ (k : Nat) (s : SimState σ),
      tsts ((memberReachesOut C cur ds trv)^[k] s) = tsts s
  | 0, _ => rfl
  | k + 1, s => by
      rw [Function.iterate_succ_apply, tsts_iterate_mro C cur ds trv k _,
        tsts_memberReachesOut]

theorem lastEx_iterate_mro (C : Ctx σ) (cur : Date) (ds : String)
    (trv : Bool) :
    ∀ (k : Nat) (s : SimState σ),
      ((memberReachesOut C cur ds trv)^[k] s).lastEx = s.lastEx
  | 0, _ => rfl
  | k + 1, s => by
      rw [Function.iterate_succ_apply, lastEx_iterate_mro C cur ds trv k _,
        lastEx_memberReachesOut]

theorem tsts_stepMember (C : Ctx σ) (travel : List (Nat × Nat)) (cur : Date)
    (s : SimState σ) : tsts (stepMember C travel cur s) = tsts s := by
  simp only [stepMember]
  split_ifs
  · rw [tsts_iterate_mro]
    rfl
  · rfl

theorem lastEx_stepMember (C : Ctx σ) (travel : List (Nat × Nat)) (cur : Date)
    (s : SimState σ) : (stepMember C travel cur s).lastEx = s.lastEx := by
  simp only [stepMember]
  split_ifs
  · rw [lastEx_iterate_mro]
  · rfl

theorem tsts_stepCheckin (C : Ctx σ) (travel : List (Nat × Nat)) (cur : Date)
    (s : SimState σ) : tsts (stepCheckin C travel cur s) = tsts s := by
  simp only [stepCheckin, conciergeCheckin]
  split_ifs <;> simp

theorem lastEx_stepCheckin (C : Ctx σ) (travel : List (Nat × Nat)) (cur : Date)
    (s : SimState σ) : (stepCheckin C travel cur s).lastEx = s.lastEx := by
  simp only [stepCheckin, conciergeCheckin]
  split_ifs <;> simp

theorem tsts_exerciseUpdate (C : Ctx σ) (cur : Date) (ds : String) (ap : ℚ)
    (trv : Bool) (s : SimState σ) :
    tsts (exerciseUpdate C cur ds ap trv s) = tsts s := by
  simp only [exerciseUpdate]
  simp

theorem lastEx_exerciseUpdate (C : Ctx σ) (cur : Date) (ds : String) (ap : ℚ)
    (trv : Bool) (s : SimState σ) :
    (exerciseUpdate C cur ds ap trv s).lastEx = cur := by
  simp only [exerciseUpdate]
  simp

theorem tsts_stepExercise (C : Ctx σ) (travel : List (Nat × Nat)) (cur : Date)
    (s : SimState σ) : tsts (stepExercise C travel cur s) = tsts s := by
  simp only [stepExercise]
  split_ifs
  · rw [tsts_exerciseUpdate]
  · rfl

theorem lastEx_stepExercise (C : Ctx σ) (travel : List (Nat × Nat))
    (cur : Date) (s : SimState σ) :
    (stepExercise C travel cur s).lastEx
      = if C.cfg.exercise_update_days ≤ dayNum cur - dayNum s.lastEx then cur
        else s.lastEx := by
  simp only [stepExercise]
  split_ifs
  · rw [lastEx_exerciseUpdate]
  · rfl

/-- The panel-day condition of the walker. -/
def panelCond (cfg : Config) (cur : Date) : Prop :=
  cur.d = 10 ∧ monthNum cfg cur ∈ cfg.diagnostic_panel_months

instance (cfg : Config) (cur : Date) : Decidable (panelCond cfg cur) := by
  unfold panelCond
  infer_instance

theorem tsts_ts_stepPanel (C : Ctx σ) (cur : Date) (s : SimState σ) :
    (tsts (stepPanel C cur s)).map (fun t => t.ts)
      = (tsts s).map (fun t => t.ts)
        ++ (if panelCond C.cfg cur then [iso ⟨cur, 8, 0⟩] else []) := by
  simp only [stepPanel, quarterlyPanel]
  split_ifs with hc hp hp
  · simp
  · exact absurd hc hp
  · exact absurd hp hc
  · simp

theorem lastEx_stepPanel (C : Ctx σ) (cur : Date) (s : SimState σ) :
    (stepPanel C cur s).lastEx = s.lastEx := by
  simp only [stepPanel, quarterlyPanel]
  split_ifs <;> simp

/-- Projection used to read off exercise-update decisions: the PT
(Rachel) authors exactly the exercise-update decisions. -/
def rachelTs (d : Decision) : Option String :=
  if d.actor_id = "U-RACHEL" then some d.ts else none

theorem rachel_memberReachesOut (C : Ctx σ) (cur : Date) (ds : String)
    (trv : Bool) (s : SimState σ) :
    (decs (memberReachesOut C cur ds trv s)).filterMap rachelTs
      = (decs s).filterMap rachelTs := by
  simp only [memberReachesOut]
  split_ifs <;> simp [rachelTs]

theorem rachel_iterate_mro (C : Ctx σ) (cur : Date) (ds : String)
    (trv : Bool) :
    ∀ (k : Nat) (s : SimState σ),
      (decs ((memberReachesOut C cur ds trv)^[k] s)).filterMap rachelTs
        = (decs s).filterMap rachelTs
  | 0, _ => rfl
  | k + 1, s => by
      rw [Function.iterate_succ_apply, rachel_iterate_mro C cur ds trv k _,
        rachel_memberReachesOut]

theorem rachel_stepMember (C : Ctx σ) (travel : List (Nat × Nat)) (cur : Date)
    (s : SimState σ) :
    (decs (stepMember C travel cur s)).filterMap rachelTs
      = (decs s).filterMap rachelTs := by
  simp only [stepMember]
  split_ifs
  · rw [rachel_iterate_mro]
    rfl
  · rfl

theorem rachel_stepCheckin (C : Ctx σ) (travel : List (Nat × Nat)) (cur : Date)
    (s : SimState σ) :
    (decs (stepCheckin C travel cur s)).filterMap rachelTs
      = (decs s).filterMap rachelTs := by
  simp only [stepCheckin, conciergeCheckin]
  split_ifs <;> simp

theorem rachel_stepExercise (C : Ctx σ) (travel : List (Nat × Nat))
    (cur : Date) (s : SimState σ) :
    (decs (stepExercise C travel cur s)).filterMap rachelTs
      = (decs s).filterMap rachelTs
        ++ (if C.cfg.exercise_update_days ≤ dayNum cur - dayNum s.lastEx then
              [iso ⟨cur, 14, 0⟩]
            else []) := by
  simp only [stepExercise, exerciseUpdate]
  split_ifs <;> simp [rachelTs]

theorem rachel_stepPanel (C : Ctx σ) (cur : Date) (s : SimState σ) :
    (decs (stepPanel C cur s)).filterMap rachelTs
      = (decs s).filterMap rachelTs := by
  simp only [stepPanel, quarterlyPanel]
  split_ifs <;> simp [rachelTs]

/-- Panel timestamps over the remaining horizon. -/
def panelTsList (cfg : Config) : Nat → Date → List String
  | 0, _ => []
  | n + 1, cur =>
      (if panelCond cfg cur then [iso ⟨cur, 8, 0⟩] else [])
        ++ panelTsList cfg n (nextDay cur)

/-- Exercise-update timestamps over the remaining horizon, tracking
`last_exercise_update`. -/
def exTsList (cfg : Config) : Nat → Date → Date → List String
  | 0, _, _ => []
  | n + 1, cur, lastEx =>
      if cfg.exercise_update_days ≤ dayNum cur - dayNum lastEx then
        iso ⟨cur, 14, 0⟩ :: exTsList cfg n (nextDay cur) cur
      else exTsList cfg n (nextDay cur) lastEx

theorem tsts_ts_runDays (C : Ctx σ) (travel : List (Nat × Nat)) :
    ∀ (n : Nat) (cur : Date) (s : SimState σ),
      (tsts (runDays C travel n cur s)).map (fun t => t.ts)
        = (tsts s).map (fun t => t.ts) ++ panelTsList C.cfg n cur
  | 0, _, s => by simp [runDays, panelTsList]
  | n + 1, cur, s => by
      rw [show runDays C travel (n + 1) cur s
          = runDays C travel n (nextDay cur) (stepDay C travel cur s) from rfl]
      rw [tsts_ts_runDays C travel n (nextDay cur) _]
      simp only [stepDay]
      rw [tsts_ts_stepPanel]
      rw [tsts_stepExercise, tsts_stepCheckin, tsts_stepMember]
      rw [panelTsList]
      rw [List.append_assoc]

theorem rachel_runDays (C : Ctx σ) (travel : List (Nat × Nat)) :
    ∀ (n : Nat) (cur : Date) (s : SimState σ),
      (decs (runDays C travel n cur s)).filterMap rachelTs
        = (decs s).filterMap rachelTs ++ exTsList C.cfg n cur s.lastEx
  | 0, _, s => by simp [runDays, exTsList]
  | n + 1, cur, s => by
      rw [show runDays C travel (n + 1) cur s
          = runDays C travel n (nextDay cur) (stepDay C travel cur s) from rfl]
      rw [rachel_runDays C travel n (nextDay cur) _]
      simp only [stepDay]
      rw [rachel_stepPanel, rachel_stepExercise, rachel_stepCheckin,
        rachel_stepMember]
      rw [lastEx_stepPanel, lastEx_stepExercise, lastEx_stepCheckin,
        lastEx_stepMember]
      rw [exTsList]
      split_ifs with hc
      · simp
      · simp

/-- C5 (amended): with the §8 example configuration, for any generator
implementation and any uuid streams: there is exactly one Test record,
timestamped 2024-01-10T08:00 (+08:00); the exercise-update decisions
are exactly two, at 2024-01-15T14:00 and 2024-01-29T14:00 — so none
falls within the first 14 days (Jan 1–14) and exactly one within the
first 15 days, the first firing 14 days after the start; and the total
message count is the same on every repeated run (it does not depend on
the uuid stream). -/
theorem C5_example_scenario {σ : Type} (rng : RNG σ)
    (ids ids' : Nat → String) :
    (tsts (ElyxRun ⟨cfg42, rng, ids⟩)).map (fun t => t.ts)
        = ["2024-01-10T08:00:00+08:00"] ∧
    (decs (ElyxRun ⟨cfg42, rng, ids⟩)).filterMap rachelTs
        = ["2024-01-15T14:00:00+08:00", "2024-01-29T14:00:00+08:00"] ∧
    (msgs (ElyxRun ⟨cfg42, rng, ids⟩)).length
        = (msgs (ElyxRun ⟨cfg42, rng, ids'⟩)).length := by
  refine ⟨?_, ?_, ?_⟩
  · rw [show ElyxRun ⟨cfg42, rng, ids⟩
        = runDays ⟨cfg42, rng, ids⟩ (travelWeeks cfg42) (30 * cfg42.months)
            cfg42.start (initState ⟨cfg42, rng, ids⟩) from rfl]
    rw [tsts_ts_runDays]
    rw [show tsts (initState (⟨cfg42, rng, ids⟩ : Ctx σ)) = [] from rfl]
    rw [List.map_nil, List.nil_append]
    rw [show (⟨cfg42, rng, ids⟩ : Ctx σ).cfg = cfg42 from rfl]
    decide
  · rw [show ElyxRun ⟨cfg42, rng, ids⟩
        = runDays ⟨cfg42, rng, ids⟩ (travelWeeks cfg42) (30 * cfg42.months)
            cfg42.start (initState ⟨cfg42, rng, ids⟩) from rfl]
    rw [rachel_runDays]
    rw [show decs (initState (⟨cfg42, rng, ids⟩ : Ctx σ)) = [] from rfl]
    rw [List.filterMap_nil, List.nil_append]
    rw [show (initState (⟨cfg42, rng, ids⟩ : Ctx σ)).lastEx = cfg42.start
        from rfl]
    rw [show (⟨cfg42, rng, ids⟩ : Ctx σ).cfg = cfg42 from rfl]
    decide
  · have h := agn_msgs_erased (agn_run cfg42 rng ids ids')
    rw [← List.length_map (msgs (ElyxRun ⟨cfg42, rng, ids⟩)) eraseMsg, h,
      List.length_map]

set_option maxRecDepth 100000 in
/-- C5 counterexample: no exercise-update Decision falls within the
first 14 days of the run (2024-01-01 through 2024-01-14): the first
exercise update fires on 2024-01-15, once 14 days have elapsed, so the
count in the first 14 days is 0, not "exactly one". -/
theorem C5_counterexample :
    ¬ (((decs (ElyxRun ⟨cfg42, natRNG, idsNum⟩)).filter fun d =>
          decide (d.actor_id = "U-RACHEL" ∧
            lexLtB d.ts.data "2024-01-15".data = true)).length
        = 1) := by
  decide

end Elyx
